import Mathlib

/-!
# tilt-starlark-docs-codegen: the classifier and the stub emitters

A shallow embedding of `internal/codegen/codegen.go`.

* `types` mirrors the part of `k8s.io/gengo/types` the generator reads:
  `Kind`, `Name`, `Member` and `Type` (here `GoType`).  Pointers that may be
  nil (`Member.Type`, `Type.Elem`, `Type.Key`, `Type.Underlying`) are `Option`s,
  and dereferencing `none` is the outcome `panic`.
* `strcase.ToSnake` (an external library) and `isTimeMember` (a helper of the
  package that lives in another file) are parameters of every definition that
  calls them.
* An `io.Writer` is a record of the bytes accepted so far together with the
  rule that decides whether the next `Write` is refused.
* `main` takes everything that lies outside the two source files (the gengo
  parser and tag reader, `FindStructMembers`, the standard output, the file
  system) from an `Env`, and leaves a `Run` behind.
* `FindStructMembers` is not among the source files; `collectMembers` and
  `FindStructMembers` are modelled from section 4.2 of the specification.
-/

set_option linter.dupNamespace false

namespace types

/-- The `Kind` constants of gengo. -/
inductive Kind where
  | Builtin | Struct | Map | Slice | Pointer | Alias | Interface | Array
  | Chan | Func | DeclarationOf | Unknown | Unsupported | Protobuf
  deriving DecidableEq, Repr

/-- The gengo `Name` of a type. -/
structure Name where
  Package : String
  Name : String
  Path : String
  deriving DecidableEq, Repr

/-- Go: `func (n Name) String() string`, used by `%s` on a `Name`. -/
def Name.String (n : types.Name) : String :=
  if n.Package = "" then n.Name else n.Package ++ "." ++ n.Name

/-- A gengo `Member` whose `Type` pointer refers to a `τ`. -/
structure MemberOf (τ : Type) where
  Name : String
  Embedded : Bool
  CommentLines : List String
  Tags : String
  Typ : Option τ

/-- The gengo `Type` record (the fields the generator can reach). -/
inductive GoType where
  | mk (Name : Name) (Kind : Kind) (CommentLines : List String)
      (Members : List (MemberOf GoType)) (Elem Key Underlying : Option GoType)

abbrev Member := MemberOf GoType

def GoType.Name : GoType → Name
  | .mk n _ _ _ _ _ _ => n

def GoType.Kind : GoType → Kind
  | .mk _ k _ _ _ _ _ => k

def GoType.CommentLines : GoType → List String
  | .mk _ _ c _ _ _ _ => c

def GoType.Members : GoType → List Member
  | .mk _ _ _ ms _ _ _ => ms

def GoType.Elem : GoType → Option GoType
  | .mk _ _ _ _ e _ _ => e

def GoType.Key : GoType → Option GoType
  | .mk _ _ _ _ _ k _ => k

def GoType.Underlying : GoType → Option GoType
  | .mk _ _ _ _ _ _ u => u

end types

namespace codegen

open types

/-- What a Go call can do: return normally, return a non-nil `error` with a
message, or panic on a nil pointer dereference. -/
inductive Outcome (α : Type) where
  | ok (a : α)
  | error (msg : String)
  | panic

/-- Go: `a && b` where evaluating `b` may dereference a nil pointer (`none`);
`b` is evaluated only when `a` is true. -/
def land (a : Bool) (b : Option Bool) : Option Bool :=
  if a then b else some false

/-- Go: `if c { return r, nil }` followed by `rest`; evaluating `c` may panic. -/
def returnIf {α : Type} (c : Option Bool) (r : α) (rest : Outcome α) : Outcome α :=
  match c with
  | none => .panic
  | some true => .ok r
  | some false => rest

/-- Go: `argName`. -/
def argName (ToSnake : String → String) (m : Member) : String :=
  if m.Name = "Labels" then "spec_labels"
  else if m.Name = "Annotations" then "spec_anotations"
  else ToSnake m.Name

/-- Go: the body of `argSpec` once `m.Type` is known to be the non-nil `t`. -/
def argSpecOf (name mName : String) (t : GoType) : Outcome (String × String × String) :=
  returnIf (some (t.Kind == Kind.Builtin && t.Name.Name == "string")) (name, "str", "\"\"") <|
  returnIf (land (t.Kind == Kind.Alias)
      (t.Underlying.map fun u => u.Kind == Kind.Builtin && u.Name.Name == "string"))
    (name, "str", "\"\"") <|
  returnIf (land (t.Kind == Kind.Pointer)
      (t.Elem.map fun e => e.Kind == Kind.Builtin && e.Name.Name == "string"))
    (name, "Optional[str]", "None") <|
  returnIf (some (t.Kind == Kind.Builtin && t.Name.Name == "bool")) (name, "bool", "False") <|
  returnIf (some (t.Kind == Kind.Builtin && t.Name.Name == "int32")) (name, "int", "0") <|
  returnIf (land (t.Kind == Kind.Map)
      (t.Elem.bind fun e => land (e.Name.Name == "string")
        (t.Key.map fun k => k.Name.Name == "string")))
    (name, "Dict[str, str]", "None") <|
  returnIf (land (t.Kind == Kind.Slice) (t.Elem.map fun e => e.Name.Name == "string"))
    (name, "List[str]", "None") <|
  returnIf (some (t.Kind == Kind.Struct)) (name, t.Name.Name, "None") <|
  -- where a condition on `t.Elem` holds, `t.Elem` is not nil: `getD` never
  -- takes its default in the two results below
  returnIf (land (t.Kind == Kind.Pointer) (t.Elem.map fun e => e.Kind == Kind.Struct))
    (name, "Optional[" ++ (t.Elem.map fun e => e.Name.Name).getD "" ++ "]", "None") <|
  returnIf (land (t.Kind == Kind.Slice) (t.Elem.map fun e => e.Kind == Kind.Struct))
    (name, "List[" ++ (t.Elem.map fun e => e.Name.Name).getD "" ++ "]", "None") <|
  .error ("Unrecognized type of member " ++ mName ++ ": " ++ t.Name.String)

/-- Go: `argSpec`.  Its first condition reads `m.Type.Kind`, so a nil `m.Type`
panics. -/
def argSpec (ToSnake : String → String) (m : Member) : Outcome (String × String × String) :=
  match m.Typ with
  | none => .panic
  | some t => argSpecOf (argName ToSnake m) m.Name t

/-! ## The shapes of the classifier's contract -/

/-- The type is the builtin called `n`. -/
def isBuiltinNamed (n : String) (t : GoType) : Bool :=
  t.Kind == Kind.Builtin && t.Name.Name == n

/-- The ten shapes the contract of the classifier lists: builtin string, string
alias, pointer to string, builtin bool, builtin int32, string-to-string map,
slice of strings, struct, pointer to struct, slice of structs. -/
def recognisedShape (t : GoType) : Bool :=
  isBuiltinNamed "string" t ||
  (t.Kind == Kind.Alias && t.Underlying.any (isBuiltinNamed "string")) ||
  (t.Kind == Kind.Pointer && t.Elem.any (isBuiltinNamed "string")) ||
  isBuiltinNamed "bool" t ||
  isBuiltinNamed "int32" t ||
  (t.Kind == Kind.Map && t.Key.any (isBuiltinNamed "string") &&
    t.Elem.any (isBuiltinNamed "string")) ||
  (t.Kind == Kind.Slice && t.Elem.any (isBuiltinNamed "string")) ||
  t.Kind == Kind.Struct ||
  (t.Kind == Kind.Pointer && t.Elem.any (fun e => e.Kind == Kind.Struct)) ||
  (t.Kind == Kind.Slice && t.Elem.any (fun e => e.Kind == Kind.Struct))

/-- The component pointers gengo sets for the kind are set: `Underlying` of an
alias, `Elem` of a pointer or slice, `Elem` and `Key` of a map. -/
def componentsPresent (t : GoType) : Bool :=
  (t.Kind != Kind.Alias || t.Underlying.isSome) &&
  (t.Kind != Kind.Pointer || t.Elem.isSome) &&
  (t.Kind != Kind.Slice || t.Elem.isSome) &&
  (t.Kind != Kind.Map || (t.Elem.isSome && t.Key.isSome))

/-- A component type (`Elem`, `Key`) that is called "string" is the builtin. -/
def stringNamesBuiltin (t : GoType) : Bool :=
  t.Elem.all (fun e => e.Name.Name != "string" || e.Kind == Kind.Builtin) &&
  t.Key.all (fun k => k.Name.Name != "string" || k.Kind == Kind.Builtin)

/-- The text `sub` occurs in the text `s`. -/
def occursIn (sub s : String) : Prop := sub.data <:+: s.data

instance (sub s : String) : Decidable (occursIn sub s) := by
  unfold occursIn; infer_instance

/-! ## Strings -/

/-- Go: `unicode.IsSpace`. -/
def IsSpace (c : Char) : Bool :=
  let r := c.toNat
  (0x09 ≤ r && r ≤ 0x0d) || r == 0x20 || r == 0x85 || r == 0xA0 || r == 0x1680 ||
  (0x2000 ≤ r && r ≤ 0x200a) || r == 0x2028 || r == 0x2029 || r == 0x202f ||
  r == 0x205f || r == 0x3000

/-- Go: `strings.TrimSpace`: drop the leading and the trailing white space. -/
def TrimSpace (s : String) : String :=
  String.mk (((s.data.dropWhile IsSpace).reverse.dropWhile IsSpace).reverse)

/-- Go: `strings.HasPrefix`. -/
def HasPrefix (s pre : String) : Bool :=
  pre.data.isPrefixOf s.data

/-- Go: `strings.Join`. -/
def Join (elems : List String) (sep : String) : String :=
  sep.intercalate elems

/-- Go: `filterCommentTags`: the loop appends every line it does not skip. -/
def filterCommentTags (lines : List String) : List String :=
  lines.foldl
    (fun result l => if HasPrefix (TrimSpace l) "+" then result else result ++ [l]) []

/-! ## Writers -/

/-- An `io.Writer`: the bytes it has accepted, and the rule by which it refuses
a `Write` (from the bytes accepted so far and the bytes offered, the error it
returns, if any).  A refused `Write` accepts nothing. -/
structure Writer where
  data : String
  refuse : String → String → Option String

/-- A writer that accepts everything, as `bytes.Buffer` does. -/
def Writer.buffer : Writer := ⟨"", fun _ _ => none⟩

/-- The writer never returns an error. -/
def Writer.neverFails (w : Writer) : Prop := ∀ d p, w.refuse d p = none

/-- Go: `fmt.Fprintf(w, format, args...)` where `p` is the formatted text: one
call of `w.Write`. -/
def Fprintf (w : Writer) (p : String) : Writer × Option String :=
  match w.refuse w.data p with
  | some err => (w, some err)
  | none => ({ w with data := w.data ++ p }, none)

/-! ## The emitters -/

/-- Go: the loop of `getSpecMemberType`. -/
def getSpecMemberTypeLoop : List Member → Option GoType
  | [] => none
  | member :: rest => if member.Name = "Spec" then member.Typ else getSpecMemberTypeLoop rest

/-- Go: `getSpecMemberType`; `none` is the nil pointer. -/
def getSpecMemberType (t : GoType) : Option GoType :=
  getSpecMemberTypeLoop t.Members

/-- Go: the loop "Print parameters for each spec member", shared word for word
by `WriteStarlarkFunction` and `WriteStarlarkMemberFunction`. -/
def writeParams (ToSnake : String → String) (isTimeMember : Member → Bool) (tName : String) :
    List Member → Writer → Writer × Outcome Unit
  | [], w => (w, .ok ())
  | member :: rest, w =>
    if isTimeMember member then writeParams ToSnake isTimeMember tName rest w
    else
      match argSpec ToSnake member with
      | .panic => (w, .panic)
      | .error err => (w, .error ("generating type " ++ tName ++ ": " ++ err))
      | .ok (argName, argType, argDefault) =>
        match Fprintf w ("\n  " ++ argName ++ ": " ++ argType ++ " = " ++ argDefault ++ ",") with
        | (w, some err) => (w, .error err)
        | (w, none) => writeParams ToSnake isTimeMember tName rest w

/-- Go: the loop "Print the argument docs", shared word for word by
`WriteStarlarkFunction` and `WriteStarlarkMemberFunction`. -/
def writeDocs (ToSnake : String → String) (isTimeMember : Member → Bool) :
    List Member → Writer → Writer × Outcome Unit
  | [], w => (w, .ok ())
  | member :: rest, w =>
    if isTimeMember member then writeDocs ToSnake isTimeMember rest w
    else
      let doc := Join (filterCommentTags member.CommentLines) "\n      "
      let doc := if doc = "" then "Documentation missing" else doc
      match Fprintf w ("\n    " ++ argName ToSnake member ++ ": " ++ doc) with
      | (w, some err) => (w, .error err)
      | (w, none) => writeDocs ToSnake isTimeMember rest w

/-- Go: `if err != nil { return err }` after a `Fprintf`, then `rest`. -/
def thenWrite (r : Writer × Option String) (rest : Writer → Writer × Outcome Unit) :
    Writer × Outcome Unit :=
  match r with
  | (w, some err) => (w, .error err)
  | (w, none) => rest w

/-- Go: a loop that may return from the function, then `rest`. -/
def thenLoop (r : Writer × Outcome Unit) (rest : Writer → Writer × Outcome Unit) :
    Writer × Outcome Unit :=
  match r with
  | (w, .ok _) => rest w
  | (w, .error err) => (w, .error err)
  | (w, .panic) => (w, .panic)

/-- Go: `WriteStarlarkFunction` (its `pkg` argument is unused). -/
def WriteStarlarkFunction (ToSnake : String → String) (isTimeMember : Member → Bool)
    (t : GoType) (w : Writer) : Writer × Outcome Unit :=
  let tName := t.Name.Name
  match getSpecMemberType t with
  | none => (w, .error ("type has no spec: " ++ tName))
  | some spec =>
    thenWrite (Fprintf w ("\ndef " ++ ToSnake tName ++
      "(\n  name: str,\n  labels: Dict[str, str] = None,\n  annotations: Dict[str, str] = None,"))
    fun w =>
    thenLoop (writeParams ToSnake isTimeMember tName spec.Members w) fun w =>
    thenWrite (Fprintf w ("\n):\n  \"\"\"\n  " ++ Join (filterCommentTags t.CommentLines) "\n  " ++
      "\n\n  Args:\n    name: The name in the Object metadata.\n    labels: A set of key/value pairs in the Object metadata for grouping objects.\n    annotations: A set of key/value pairs in the Object metadata for attaching data to objects."))
    fun w =>
    thenLoop (writeDocs ToSnake isTimeMember spec.Members w) fun w =>
    thenWrite (Fprintf w "\n\"\"\"\n  pass") fun w =>
    (w, .ok ())

/-- Go: `WriteStarlarkMemberClass` (its `pkg` argument is unused). -/
def WriteStarlarkMemberClass (t : GoType) (w : Writer) : Writer × Outcome Unit :=
  let tName := t.Name.Name
  thenWrite (Fprintf w ("\n\nclass " ++ tName ++ ":\n  \"\"\"" ++
    Join (filterCommentTags t.CommentLines) "\n  " ++ "\n\"\"\"\n  pass\n\n")) fun w =>
  (w, .ok ())

/-- Go: `WriteStarlarkMemberFunction` (its `pkg` argument is unused). -/
def WriteStarlarkMemberFunction (ToSnake : String → String) (isTimeMember : Member → Bool)
    (t : GoType) (w : Writer) : Writer × Outcome Unit :=
  let tName := t.Name.Name
  thenWrite (Fprintf w ("\n\ndef " ++ ToSnake tName ++ "(")) fun w =>
  thenLoop (writeParams ToSnake isTimeMember tName t.Members w) fun w =>
  thenWrite (Fprintf w ("\n) -> " ++ tName ++ ":\n  \"\"\"\n  " ++
    Join (filterCommentTags t.CommentLines) "\n  " ++ "\n\n  Args:")) fun w =>
  thenLoop (writeDocs ToSnake isTimeMember t.Members w) fun w =>
  thenWrite (Fprintf w "\n\"\"\"\n  pass") fun w =>
  (w, .ok ())

end codegen


/-! ## Example types -/

namespace examples

open types codegen

def builtin (n : String) : GoType := .mk ⟨"", n, ""⟩ .Builtin [] [] none none none

def field (n : String) (t : GoType) : Member := ⟨n, false, [], "", some t⟩

/-- Go: `type string int32`, a named type that shadows the predeclared one. -/
def aliasNamedString : GoType :=
  .mk ⟨"p", "string", ""⟩ .Alias [] [] none none (some (builtin "int32"))

/-- Go: `type string struct{}`. -/
def structNamedString : GoType := .mk ⟨"p", "string", ""⟩ .Struct [] [] none none none

def sliceOf (e : GoType) : GoType :=
  .mk ⟨"", "[]" ++ e.Name.String, ""⟩ .Slice [] [] (some e) none none

def pointerTo (e : GoType) : GoType :=
  .mk ⟨"", "*" ++ e.Name.String, ""⟩ .Pointer [] [] (some e) none none

def mapOf (k e : GoType) : GoType :=
  .mk ⟨"", "map[" ++ k.Name.String ++ "]" ++ e.Name.String, ""⟩ .Map [] [] (some e) (some k) none

def structNamed (n : String) (ms : List Member) : GoType :=
  .mk ⟨"p", n, ""⟩ .Struct [] ms none none none

def aliasOf (n : String) (u : GoType) : GoType :=
  .mk ⟨"p", n, ""⟩ .Alias [] [] none none (some u)

end examples

namespace codegen

open types examples

/-! ## Definitions used to state the properties -/

/-- Two members the emitters cannot tell apart: same name, same type, same
answer of `isTimeMember`, and the same comment lines once the tags are gone. -/
def sameFilteredMember (isTimeMember : Member → Bool) (m m' : Member) : Prop :=
  m.Name = m'.Name ∧ m.Typ = m'.Typ ∧ isTimeMember m = isTimeMember m' ∧
    filterCommentTags m.CommentLines = filterCommentTags m'.CommentLines

/-- A struct `Bar` whose comments, and whose member's comments, carry tag lines. -/
def taggedBar : GoType :=
  .mk ⟨"p", "Bar", ""⟩ .Struct ["Bar holds a flag.", "+k8s:deepcopy-gen=true"]
    [⟨"On", false, ["On switches it.", "  +optional"], "", some (builtin "bool")⟩] none none none

/-- The struct `Bar` with the tag lines removed by hand. -/
def plainBar : GoType :=
  .mk ⟨"p", "Bar", ""⟩ .Struct ["Bar holds a flag."]
    [⟨"On", false, ["On switches it."], "", some (builtin "bool")⟩] none none none

/-- A generation target whose `Spec` is `taggedBar`. -/
def taggedFoo : GoType :=
  .mk ⟨"p", "Foo", ""⟩ .Struct ["Foo is a target.", "\t+tilt:starlark-gen=true"]
    [field "Spec" taggedBar] none none none

/-- The target with the tag lines removed by hand. -/
def plainFoo : GoType :=
  .mk ⟨"p", "Foo", ""⟩ .Struct ["Foo is a target."] [field "Spec" plainBar] none none none

/-- The writer after it has accepted `p`. -/
def Writer.emit (w : Writer) (p : String) : Writer := { w with data := w.data ++ p }

/-- The concatenation of a list of texts. -/
def concatLines : List String → String
  | [] => ""
  | s :: rest => s ++ concatLines rest

/-- The members a loop of the emitters does not skip: those that are not
time-valued, in declaration order. -/
def nonTimeMembers (isTimeMember : Member → Bool) (ms : List Member) : List Member :=
  ms.filter (fun m => !isTimeMember m)

/-- One parameter line of a signature, `name: type = default,`, on a line of its
own. -/
def paramLine (r : String × String × String) : String :=
  "\n  " ++ r.1 ++ ": " ++ r.2.1 ++ " = " ++ r.2.2 ++ ","

/-- One entry of an Args section: the parameter name and the filtered comment
of the member, or the placeholder when that comment is empty. -/
def docEntry (ToSnake : String → String) (m : Member) : String :=
  "\n    " ++ argName ToSnake m ++ ": " ++
    (if Join (filterCommentTags m.CommentLines) "\n      " = "" then "Documentation missing"
     else Join (filterCommentTags m.CommentLines) "\n      ")

/-- The member has a type, and that type has the component pointers of its
kind. -/
def memberWellFormed (m : Member) : Bool :=
  m.Typ.any componentsPresent

/-- The text `WriteStarlarkFunction` writes for a target whose Spec member has
the type `spec` and whose included fields classify as `rs`: the signature, the
documentation block and the closing lines. -/
def functionText (ToSnake : String → String) (isTimeMember : Member → Bool)
    (t spec : GoType) (rs : List (String × String × String)) : String :=
  "\ndef " ++ ToSnake t.Name.Name ++
    "(\n  name: str,\n  labels: Dict[str, str] = None,\n  annotations: Dict[str, str] = None," ++
  concatLines (rs.map paramLine) ++
  ("\n):\n  \"\"\"\n  " ++ Join (filterCommentTags t.CommentLines) "\n  " ++
    "\n\n  Args:\n    name: The name in the Object metadata.\n    labels: A set of key/value pairs in the Object metadata for grouping objects.\n    annotations: A set of key/value pairs in the Object metadata for attaching data to objects.") ++
  concatLines ((nonTimeMembers isTimeMember spec.Members).map (docEntry ToSnake)) ++
  "\n\"\"\"\n  pass"

/-- A stand-in for `strcase.ToSnake` in the examples: it lower-cases the letters
A to Z and changes nothing else. -/
def lowerCase (s : String) : String :=
  String.mk (s.data.map Char.toLower)

/-- A member is time-valued when its type is called "Time": a stand-in for the
package's `isTimeMember` in the examples. -/
def typeCalledTime (m : Member) : Bool :=
  m.Typ.any (fun t => t.Name.Name == "Time")

/-- Go: `type FooSpec struct { Name string; Started Time; Count int32; Children []Bar }`. -/
def fooSpec : GoType :=
  structNamed "FooSpec"
    [field "Name" (builtin "string"), field "Started" (structNamed "Time" []),
     field "Count" (builtin "int32"), field "Children" (sliceOf (structNamed "Bar" []))]

/-- Go: `type Foo struct { Spec FooSpec }`. -/
def foo : GoType := structNamed "Foo" [field "Spec" fooSpec]

/-- Go: `type NoSpec struct { Status string }`, a target without a Spec member. -/
def noSpec : GoType := structNamed "NoSpec" [field "Status" (builtin "string")]

/-- Go: `type BadSpec struct { Name string; Size int64 }`. -/
def badSpec : GoType :=
  structNamed "BadSpec" [field "Name" (builtin "string"), field "Size" (builtin "int64")]

/-- Go: `type Bad struct { Spec BadSpec }`, a target with a field of
unsupported shape. -/
def bad : GoType := structNamed "Bad" [field "Spec" badSpec]

/-- The type with its member list replaced. -/
def withMembers (t : GoType) (ms : List Member) : GoType :=
  .mk t.Name t.Kind t.CommentLines ms t.Elem t.Key t.Underlying

/-- The target with the type of its members called "Spec" replaced by `spec`. -/
def withSpec (t spec : GoType) : GoType :=
  withMembers t (t.Members.map fun m => if m.Name = "Spec" then { m with Typ := some spec } else m)

/-- The text `WriteStarlarkMemberClass` writes. -/
def classText (t : GoType) : String :=
  "\n\nclass " ++ t.Name.Name ++ ":\n  \"\"\"" ++
    Join (filterCommentTags t.CommentLines) "\n  " ++ "\n\"\"\"\n  pass\n\n"

/-- The text `WriteStarlarkMemberFunction` writes for a member type whose
included fields classify as `rs`. -/
def memberFunctionText (ToSnake : String → String) (isTimeMember : Member → Bool)
    (t : GoType) (rs : List (String × String × String)) : String :=
  "\n\ndef " ++ ToSnake t.Name.Name ++ "(" ++
  concatLines (rs.map paramLine) ++
  ("\n) -> " ++ t.Name.Name ++ ":\n  \"\"\"\n  " ++
    Join (filterCommentTags t.CommentLines) "\n  " ++ "\n\n  Args:") ++
  concatLines ((nonTimeMembers isTimeMember t.Members).map (docEntry ToSnake)) ++
  "\n\"\"\"\n  pass"

/-- Go: `type Event struct { Reason string; At Time; Weird int64 }` where the
field `Weird` is also taken to be time-valued by `timeOrWeird`. -/
def eventType : GoType :=
  structNamed "Event"
    [field "Reason" (builtin "string"), field "At" (structNamed "Time" []),
     field "Weird" (builtin "int64")]

/-- A stand-in for `isTimeMember` that also holds of the field called "Weird". -/
def timeOrWeird (m : Member) : Bool :=
  typeCalledTime m || m.Name == "Weird"

/-- Go: `type Holder struct { Spec Event }`, a target whose Spec is `eventType`. -/
def holder : GoType := structNamed "Holder" [field "Spec" eventType]

/-- The field carries no comment: gengo gives it no comment line, or the single
empty line that splitting an empty comment yields. -/
def carriesNoComment (m : Member) : Bool :=
  m.CommentLines == [] || m.CommentLines == [""]

/-- The Args entry as the specification words it: the placeholder if the field
carries no comment, the field's filtered comment otherwise. -/
def claimedDocEntry (ToSnake : String → String) (m : Member) : String :=
  "\n    " ++ argName ToSnake m ++ ": " ++
    (if carriesNoComment m then "Documentation missing"
     else Join (filterCommentTags m.CommentLines) "\n      ")

/-- A field `Port int32` whose only comment line is a tag. -/
def portField : Member := ⟨"Port", false, ["+optional"], "", some (builtin "int32")⟩

/-- Go: `type Probe struct { Spec ProbeSpec }` with
`type ProbeSpec struct { Port int32 }`, the field commented `// +optional`. -/
def probe : GoType := structNamed "Probe" [field "Spec" (structNamed "ProbeSpec" [portField])]

/-- The text of the Args entry of a member, after its name. -/
def docText (m : Member) : String :=
  if Join (filterCommentTags m.CommentLines) "\n      " = "" then "Documentation missing"
  else Join (filterCommentTags m.CommentLines) "\n      "

/-- Go: `type FooSpec struct { Name string; Count int32; Children []Bar }`. -/
def fooSpec3 : GoType :=
  structNamed "FooSpec"
    [field "Name" (builtin "string"), field "Count" (builtin "int32"),
     field "Children" (sliceOf (structNamed "Bar" []))]

/-- Go: `type Foo struct { Spec FooSpec }` with the three fields of `fooSpec3`. -/
def foo3 : GoType := structNamed "Foo" [field "Spec" fooSpec3]

/-! ## Loading the targets and the main program -/

/-- Go: the loop of `LoadStarlarkGenTypes` over the types of the package, in the
order the map iteration enumerates them; `extract` is gengo's
`types.ExtractSingleBoolCommentTag`. -/
def selectLoop (extract : String → String → Bool → List String → Outcome Bool) :
    List GoType → List GoType → Outcome (List GoType)
  | [], results => .ok results
  | t :: rest, results =>
    match extract "+" "tilt:starlark-gen" false t.CommentLines with
    | .panic => .panic
    | .error err => .error ("parsing tags in " ++ t.Name.String ++ ": " ++ err)
    | .ok ok => selectLoop extract rest (if ok then results ++ [t] else results)

/-- Go: `sort.Slice(results, less)` with `less` comparing `Name.Name` by `<`.
Go compares strings byte by byte, which on UTF-8 is the order of the character
lists.  `sort.Slice` is some sorting algorithm; insertion sort stands for it
(for types whose names differ pairwise every sort returns the same list). -/
def sortByName (results : List GoType) : List GoType :=
  results.insertionSort (fun a b => a.Name.Name.data ≤ b.Name.Name.data)

/-- Go: `LoadStarlarkGenTypes`, the list of targets it returns.  `packageTypes`
stands for the gengo parser: the types of the package as the iteration over
`pkgSpec.Types` enumerates them, or the parser's error. -/
def LoadStarlarkGenTypes (packageTypes : String → Outcome (List GoType))
    (extract : String → String → Bool → List String → Outcome Bool) (pkg : String) :
    Outcome (List GoType) :=
  match packageTypes pkg with
  | .panic => .panic
  | .error err => .error err
  | .ok types =>
    match selectLoop extract types [] with
    | .panic => .panic
    | .error err => .error err
    | .ok results => .ok (sortByName results)

/-- Go: `WritePreamble` (its `pkg` argument is unused). -/
def WritePreamble (w : Writer) : Writer × Outcome Unit :=
  thenWrite (Fprintf w
    "from typing import Dict, List, Optional\n\n# AUTOGENERATED by github.com/tilt-dev/tilt-starlark-docs-codegen\n# DO NOT EDIT MANUALLY\n")
  fun w => (w, .ok ())

/-- What `main` takes from outside the two source files. -/
structure Env where
  /-- External: `strcase.ToSnake`. -/
  ToSnake : String → String
  /-- The `isTimeMember` of the package, defined in another file. -/
  isTimeMember : Member → Bool
  /-- The gengo parser, see `LoadStarlarkGenTypes`. -/
  packageTypes : String → Outcome (List GoType)
  /-- External: `types.ExtractSingleBoolCommentTag` of gengo. -/
  ExtractSingleBoolCommentTag : String → String → Bool → List String → Outcome Bool
  /-- The `FindStructMembers` of the package, defined in another file. -/
  FindStructMembers : List GoType → Outcome (List GoType)
  /-- External: `os.Stdout`. -/
  Stdout : Writer
  /-- External: `os.OpenFile(path, O_WRONLY|O_CREATE|O_TRUNC, 0555)`. -/
  OpenFile : String → Outcome Writer
  /-- External: `filepath.Join`. -/
  Join : String → String → String
  /-- External: `filepath.Base`. -/
  Base : String → String

/-- Go: `OpenOutputFile`. -/
def OpenOutputFile (env : Env) (outDir : String) : Outcome Writer :=
  if outDir ≠ "-" then env.OpenFile (env.Join outDir "__init__.py") else .ok env.Stdout

/-- Go: a `for _, t := range ts` loop of `main` that leaves `main` when `f`
returns an error. -/
def forEachType (f : GoType → Writer → Writer × Outcome Unit) :
    List GoType → Writer → Writer × Outcome Unit
  | [], w => (w, .ok ())
  | t :: rest, w => thenLoop (f t w) (forEachType f rest)

/-- Go: lines 38 to 73 of `main`: everything that is written to the in-memory
buffer, and the first error met. -/
def mainBuffer (env : Env) (topTypes : List GoType) : Writer × Outcome Unit :=
  thenLoop (WritePreamble Writer.buffer) fun buf =>
  match env.FindStructMembers topTypes with
  | .panic => (buf, .panic)
  | .error err => (buf, .error err)
  | .ok memberTypes =>
    thenLoop (forEachType WriteStarlarkMemberClass memberTypes buf) fun buf =>
    thenLoop (forEachType (WriteStarlarkFunction env.ToSnake env.isTimeMember) topTypes buf)
    fun buf =>
    thenLoop (forEachType (WriteStarlarkMemberFunction env.ToSnake env.isTimeMember)
      memberTypes buf)
    fun buf => (buf, .ok ())

/-- What a run of `main` leaves behind: how it ended (`error` is `os.Exit(1)`),
what it printed on the standard error, whether `OpenOutputFile` was called, and
the destination, if it was obtained, with the bytes it has accepted. -/
structure Run where
  outcome : Outcome Unit
  stderr : String
  opened : Bool
  out : Option Writer

/-- Go: `fmt.Fprintf(os.Stderr, "Error: %v\n", err); os.Exit(1)`. -/
def exitWith (err : String) (opened : Bool) (out : Option Writer) : Run :=
  { outcome := .error err, stderr := "Error: " ++ err ++ "\n", opened := opened, out := out }

/-- Go: `main`, with `args` for `os.Args`. -/
def main (env : Env) (args : List String) : Run :=
  match args with
  | [] => { outcome := .panic, stderr := "", opened := false, out := none }
  | [_, a1, a2] =>
    match LoadStarlarkGenTypes env.packageTypes env.ExtractSingleBoolCommentTag a1 with
    | .panic => { outcome := .panic, stderr := "", opened := false, out := none }
    | .error err => exitWith err false none
    | .ok topTypes =>
      match mainBuffer env topTypes with
      | (_, .panic) => { outcome := .panic, stderr := "", opened := false, out := none }
      | (_, .error err) => exitWith err false none
      | (buf, .ok _) =>
        match OpenOutputFile env a2 with
        | .panic => { outcome := .panic, stderr := "", opened := true, out := none }
        | .error err => exitWith err true none
        | .ok out =>
          match Fprintf out buf.data with
          | (out, some err) => exitWith err true (some out)
          | (out, none) => { outcome := .ok (), stderr := "", opened := true, out := some out }
  | a0 :: _ =>
    { outcome := .error "requires exactly 2 arguments",
      stderr := env.Base a0 ++
        ": requires exactly 2 arguments.\n\nUsage:\n# Sample input and output\ntilt-starlark-docs-codegen ./path/to/input ./path/to/output\n\n# In the Tilt codebase\ntilt-starlark-docs-codegen ./pkg/apis/core/v1alpha1 ../tilt.build/api/modules/v1alpha1\n\n# Dry run (print to stdout)\ntilt-starlark-docs-codegen ./pkg/apis/core/v1alpha1 -\n",
      opened := false, out := none }

/-- The stub of `t`: the text the emitter `f` writes for `t` into an empty
buffer. -/
def stubText (f : GoType → Writer → Writer × Outcome Unit) (t : GoType) : String :=
  (f t Writer.buffer).1.data

/-- The fixed preamble. -/
def preambleText : String :=
  "from typing import Dict, List, Optional\n\n# AUTOGENERATED by github.com/tilt-dev/tilt-starlark-docs-codegen\n# DO NOT EDIT MANUALLY\n"

/-- The text of a successful run: the preamble, the class stubs of the member
types, the function stubs of the targets, the constructor-function stubs of the
member types. -/
def outputText (env : Env) (topTypes memberTypes : List GoType) : String :=
  preambleText ++
  concatLines (memberTypes.map (stubText WriteStarlarkMemberClass)) ++
  concatLines (topTypes.map (stubText (WriteStarlarkFunction env.ToSnake env.isTimeMember))) ++
  concatLines (memberTypes.map
    (stubText (WriteStarlarkMemberFunction env.ToSnake env.isTimeMember)))

/-- A gengo stand-in for the examples: the tag is true on the comment line
`+tilt:starlark-gen=true` and takes the default otherwise. -/
def tagLinePresent (_marker _key : String) (defaultVal : Bool) (lines : List String) :
    Outcome Bool :=
  .ok (if lines.contains "+tilt:starlark-gen=true" then true else defaultVal)

/-- The type with the comment lines of a generation target. -/
def asTarget (t : GoType) : GoType :=
  .mk t.Name t.Kind ["A target.", "+tilt:starlark-gen=true"] t.Members t.Elem t.Key t.Underlying

/-- An environment for the examples: a package with the targets `Foo` and `Abc`
(enumerated in that order) and the struct `Bar`, a collector that returns `Bar`,
and a standard output that accepts everything. -/
def exampleEnv : Env where
  ToSnake := lowerCase
  isTimeMember := typeCalledTime
  packageTypes := fun _ =>
    .ok [asTarget foo3, structNamed "Bar" [],
      asTarget (structNamed "Abc" [field "Spec" (structNamed "AbcSpec" [])])]
  ExtractSingleBoolCommentTag := tagLinePresent
  FindStructMembers := fun _ => .ok [structNamed "Bar" []]
  Stdout := Writer.buffer
  OpenFile := fun _ => .error "permission denied"
  Join := fun dir file => dir ++ "/" ++ file
  Base := fun path => path

/-- The environment of the examples with a package whose only target, `Bad`,
has a field of unsupported shape. -/
def badEnv : Env :=
  { exampleEnv with packageTypes := fun _ => .ok [asTarget bad] }

/-- The tag of the type evaluates to true (an absent tag takes the default,
`false`). -/
def selected (extract : String → String → Bool → List String → Outcome Bool) (t : GoType) :
    Bool :=
  match extract "+" "tilt:starlark-gen" false t.CommentLines with
  | .ok true => true
  | _ => false

/-! ## The member collector -/

/-- The struct type a field refers to directly, behind a pointer, or as the
element of a slice; `none` for every other field. -/
def referencedStruct (m : Member) : Option GoType :=
  match m.Typ with
  | none => none
  | some t =>
    if t.Kind == Kind.Struct then some t
    else if t.Kind == Kind.Pointer || t.Kind == Kind.Slice then
      match t.Elem with
      | some e => if e.Kind == Kind.Struct then some e else none
      | none => none
    else none

/-- Modelled from the spec: the walk of the Member Collector (section 4.2) over
a member list, absent from the source files.  In field declaration order, a
struct type reached through a field (directly, inside a pointer or inside a
slice) is recorded the first time it is met, a type being identified by its
gengo `Name`, and its own fields are then walked in turn. -/
def collectMembers (acc : List GoType) (ms : List Member) : List GoType :=
  match ms with
  | [] => acc
  | m :: rest =>
    match _h : referencedStruct m with
    | none => collectMembers acc rest
    | some s =>
      if acc.any (fun u => u.Name == s.Name) then collectMembers acc rest
      else collectMembers (collectMembers (acc ++ [s]) s.Members) rest
termination_by sizeOf ms
decreasing_by
  all_goals simp_wf
  all_goals first
    | omega
    | (have hs : sizeOf s.Members < sizeOf s := by
         cases s
         simp only [GoType.Members, GoType.mk.sizeOf_spec]
         omega
       have hm : ∀ m : Member, referencedStruct m = some s → sizeOf s < sizeOf m := by
         intro m h
         obtain ⟨n, e, c, tg, ty⟩ := m
         unfold referencedStruct at h
         cases ty with
         | none => simp at h
         | some t =>
           have ht : sizeOf t < sizeOf (MemberOf.mk n e c tg (some t)) := by
             simp only [MemberOf.mk.sizeOf_spec, Option.some.sizeOf_spec]
             omega
           simp only at h
           split at h
           · cases h
             exact ht
           · split at h
             · cases he : t.Elem with
               | none => simp [he] at h
               | some el =>
                 have hel : sizeOf el < sizeOf t := by
                   cases t
                   simp only [GoType.Elem] at he
                   subst he
                   simp only [GoType.mk.sizeOf_spec, Option.some.sizeOf_spec]
                   omega
                 simp only [he] at h
                 split at h
                 · cases h
                   omega
                 · cases h
             · cases h
       have hlt := hm _ _h
       omega)

/-- Modelled from the spec: `FindStructMembers`, the Member Collector of
section 4.2, absent from the source files.  The targets are walked in their
order, each through the member list of its Spec; a target without a Spec, of
which the section says nothing, adds nothing. -/
def FindStructMembers (targets : List GoType) : List GoType :=
  targets.foldl
    (fun acc t =>
      match getSpecMemberType t with
      | none => acc
      | some spec => collectMembers acc spec.Members)
    []

/-- Every struct a field of `ms` refers to is in `R`, by name. -/
def covered (R : List GoType) (ms : List Member) : Prop :=
  ∀ m ∈ ms, ∀ s, referencedStruct m = some s → s.Name ∈ R.map fun u => u.Name

/-- The text `ty` of a parameter's type is one of the six that name no struct,
or it names a type of `R`: as `N`, `Optional[N]` or `List[N]`. -/
def typeTextCovered (R : List GoType) (ty : String) : Prop :=
  ty ∈ ["str", "Optional[str]", "bool", "int", "Dict[str, str]", "List[str]"] ∨
    ∃ u ∈ R, ty = u.Name.Name ∨ ty = "Optional[" ++ u.Name.Name ++ "]" ∨
      ty = "List[" ++ u.Name.Name ++ "]"

/-- Go: `type Node struct { Label string; Child *Leaf }` with
`type Leaf struct { Tags []string }`. -/
def nodeType : GoType :=
  structNamed "Node"
    [field "Label" (builtin "string"),
     field "Child" (pointerTo (structNamed "Leaf" [field "Tags" (sliceOf (builtin "string"))]))]

/-- Go: `type Tree struct { Spec TreeSpec }` with
`type TreeSpec struct { Root Node; Others []Node }`. -/
def treeType : GoType :=
  structNamed "Tree"
    [field "Spec" (structNamed "TreeSpec"
      [field "Root" nodeType, field "Others" (sliceOf nodeType)])]

/-! ### End of the definitions -/

end codegen

namespace codegen

open types

/-! ## Facts about the classifier -/

theorem occursIn_append_left (sub s r : String) (h : occursIn sub s) : occursIn sub (s ++ r) := by
  unfold occursIn at *
  rw [String.data_append]
  exact h.trans (List.infix_append' [] s.data r.data)

theorem occursIn_append_right (sub s r : String) (h : occursIn sub r) : occursIn sub (s ++ r) := by
  unfold occursIn at *
  rw [String.data_append]
  exact h.trans (List.suffix_append s.data r.data).isInfix

theorem occursIn_self (s : String) : occursIn s s := List.infix_refl _

theorem occursIn_Name_String (n : types.Name) : occursIn n.Name n.String := by
  unfold Name.String
  split
  · exact occursIn_self _
  · exact occursIn_append_right _ _ _ (occursIn_self _)

/-- Comparing two kinds with `==` decides their equality. -/
theorem kind_beq (a b : Kind) : (a == b) = decide (a = b) := rfl

/-- The result of `argSpec` on a member whose type pointer is set. -/
theorem argSpec_some (ToSnake : String → String) (m : Member) (t : GoType)
    (hm : m.Typ = some t) : argSpec ToSnake m = argSpecOf (argName ToSnake m) m.Name t := by
  simp [argSpec, hm]

/-- A property of the returned value holds after `if c { return r }; rest` when
it holds of `r` and of what `rest` returns. -/
theorem returnIf_ok_imp {α : Type} (P : α → Prop) (c : Option Bool) (r : α) (rest : Outcome α)
    (hr : P r) (hrest : ∀ x, rest = .ok x → P x) :
    ∀ x, returnIf c r rest = .ok x → P x := by
  intro x h
  match c, h with
  | some true, h =>
    simp only [returnIf, Outcome.ok.injEq] at h
    exact h ▸ hr
  | some false, h => exact hrest x h

/-- On success the first component of the result is the `name` the body was
given. -/
theorem argSpecOf_name (name mName : String) (t : GoType) :
    ∀ r, argSpecOf name mName t = .ok r → r.1 = name := by
  unfold argSpecOf
  repeat' (first
    | (refine returnIf_ok_imp (fun r : String × String × String => r.1 = name) _ _ _ rfl ?_)
    | (intro x h; exact Outcome.noConfusion h))

/-- The name `argSpec` returns on success is `argName` of the member. -/
theorem argSpec_name (ToSnake : String → String) (m : Member) (r : String × String × String)
    (h : argSpec ToSnake m = .ok r) : r.1 = argName ToSnake m := by
  unfold argSpec at h
  match hm : m.Typ, h with
  | some t, h => exact argSpecOf_name _ _ t r h

/-- When every condition of `argSpec` evaluates to false, the final `return`
is reached. -/
theorem argSpecOf_fallthrough (name mName : String) (t : GoType)
    (h1 : (t.Kind == Kind.Builtin && t.Name.Name == "string") = false)
    (h2 : land (t.Kind == Kind.Alias)
      (t.Underlying.map fun u => u.Kind == Kind.Builtin && u.Name.Name == "string") = some false)
    (h3 : land (t.Kind == Kind.Pointer)
      (t.Elem.map fun e => e.Kind == Kind.Builtin && e.Name.Name == "string") = some false)
    (h4 : (t.Kind == Kind.Builtin && t.Name.Name == "bool") = false)
    (h5 : (t.Kind == Kind.Builtin && t.Name.Name == "int32") = false)
    (h6 : land (t.Kind == Kind.Map)
      (t.Elem.bind fun e => land (e.Name.Name == "string")
        (t.Key.map fun k => k.Name.Name == "string")) = some false)
    (h7 : land (t.Kind == Kind.Slice) (t.Elem.map fun e => e.Name.Name == "string") = some false)
    (h8 : (t.Kind == Kind.Struct) = false)
    (h9 : land (t.Kind == Kind.Pointer) (t.Elem.map fun e => e.Kind == Kind.Struct) = some false)
    (h10 : land (t.Kind == Kind.Slice) (t.Elem.map fun e => e.Kind == Kind.Struct) = some false) :
    argSpecOf name mName t =
      .error ("Unrecognized type of member " ++ mName ++ ": " ++ t.Name.String) := by
  simp only [argSpecOf, h1, h2, h3, h4, h5, h6, h7, h8, h9, h10, returnIf]

/-- A guarded condition on a component is false when the guard together with
the condition is, provided the component is there when the guard holds. -/
theorem land_map_false {α : Type} (a : Bool) (o : Option α) (f : α → Bool)
    (hpres : a = true → o.isSome = true) (hf : (a && o.any f) = false) :
    land a (o.map f) = some false := by
  cases a <;> cases o <;> simp_all [land]

/-- A type outside the ten shapes whose component pointers are set and whose
component types called "string" are the builtin is refused, and the message
carries the member's name and the type's name. -/
theorem argSpec_unrecognised_error (ToSnake : String → String) (m : Member) (t : GoType)
    (hm : m.Typ = some t) (hp : componentsPresent t = true) (hs : stringNamesBuiltin t = true)
    (hu : recognisedShape t = false) :
    argSpec ToSnake m =
        .error ("Unrecognized type of member " ++ m.Name ++ ": " ++ t.Name.String) ∧
      occursIn m.Name ("Unrecognized type of member " ++ m.Name ++ ": " ++ t.Name.String) ∧
      occursIn t.Name.Name ("Unrecognized type of member " ++ m.Name ++ ": " ++ t.Name.String) := by
  refine ⟨?_, ?_, ?_⟩
  · rw [argSpec_some ToSnake m t hm]
    simp only [recognisedShape, isBuiltinNamed, Bool.or_eq_false_iff] at hu
    obtain ⟨⟨⟨⟨⟨⟨⟨⟨⟨u1, u2⟩, u3⟩, u4⟩, u5⟩, u6⟩, u7⟩, u8⟩, u9⟩, u10⟩ := hu
    simp only [componentsPresent, Bool.and_eq_true, Bool.or_eq_true, bne_iff_ne, ne_eq] at hp
    obtain ⟨⟨⟨p1, p2⟩, p3⟩, p4⟩ := hp
    simp only [stringNamesBuiltin, Bool.and_eq_true] at hs
    obtain ⟨s1, s2⟩ := hs
    apply argSpecOf_fallthrough _ _ _ u1
    · exact land_map_false _ _ _ (fun h => by simp_all) u2
    · exact land_map_false _ _ _ (fun h => by simp_all) u3
    · exact u4
    · exact u5
    · cases he : t.Elem <;> cases hky : t.Key <;> cases hk : (t.Kind == Kind.Map) <;>
        simp_all [land, isBuiltinNamed]
      tauto
    · cases he : t.Elem <;> cases hk : (t.Kind == Kind.Slice) <;>
        simp_all [land, isBuiltinNamed]
      tauto
    · exact u8
    · exact land_map_false _ _ _ (fun h => by simp_all) u9
    · exact land_map_false _ _ _ (fun h => by simp_all) u10
  · exact occursIn_append_left _ _ _ (occursIn_append_left _ _ _
      (occursIn_append_right _ _ _ (occursIn_self _)))
  · exact occursIn_append_right _ _ _ (occursIn_Name_String _)

/-! ## The classifier: claims C1 to C7 -/

open examples

/-- C1 (the code departs from the claim): a slice whose element type is the
alias `type string int32` is none of the ten shapes, yet `argSpec` returns
`List[str]` for it instead of an error, because the slice-of-strings condition
compares only the element type's name. -/
theorem C1_argSpec_accepts_slice_of_alias_named_string :
    recognisedShape (sliceOf aliasNamedString) = false ∧
      componentsPresent (sliceOf aliasNamedString) = true ∧
      ∀ ToSnake : String → String,
        argSpec ToSnake (field "Tags" (sliceOf aliasNamedString)) =
          .ok (ToSnake "Tags", "List[str]", "None") := by
  refine ⟨by decide, by decide, fun ToSnake => ?_⟩
  simp [argSpec, argSpecOf, returnIf, land, kind_beq, argName, field, sliceOf, aliasNamedString,
    GoType.Kind, GoType.Elem, GoType.Name]

/-- C2: a member of builtin type is classified without error as `(str, "")`
when the builtin is string, `(bool, False)` when it is bool and `(int, 0)` when
it is int32, under the parameter name `argName` of the member. -/
theorem C2_argSpec_builtin (ToSnake : String → String) (m : Member) (t : GoType)
    (hm : m.Typ = some t) (hk : t.Kind = Kind.Builtin) :
    (t.Name.Name = "string" →
        argSpec ToSnake m = .ok (argName ToSnake m, "str", "\"\"")) ∧
      (t.Name.Name = "bool" →
        argSpec ToSnake m = .ok (argName ToSnake m, "bool", "False")) ∧
      (t.Name.Name = "int32" →
        argSpec ToSnake m = .ok (argName ToSnake m, "int", "0")) := by
  rw [argSpec_some ToSnake m t hm]
  refine ⟨fun hn => ?_, fun hn => ?_, fun hn => ?_⟩ <;>
    simp [argSpecOf, returnIf, land, kind_beq, hk, hn]

theorem C2_argSpec_builtin_witness :
    argSpec id (field "Count" (builtin "int32")) =
        .ok (argName id (field "Count" (builtin "int32")), "int", "0") ∧
      argSpec id (field "On" (builtin "bool")) =
        .ok (argName id (field "On" (builtin "bool")), "bool", "False") ∧
      argSpec id (field "Id" (builtin "string")) =
        .ok (argName id (field "Id" (builtin "string")), "str", "\"\"") :=
  ⟨(C2_argSpec_builtin id (field "Count" (builtin "int32")) (builtin "int32") rfl rfl).2.2 rfl,
   (C2_argSpec_builtin id (field "On" (builtin "bool")) (builtin "bool") rfl rfl).2.1 rfl,
   (C2_argSpec_builtin id (field "Id" (builtin "string")) (builtin "string") rfl rfl).1 rfl⟩

/-- C3: a member whose type is a struct named `N` is classified as `N` with
default `None`, and a member whose type is a pointer to a struct named `N` as
`Optional[N]` with default `None`; neither returns an error. -/
theorem C3_argSpec_struct (ToSnake : String → String) (m : Member) (t : GoType) (N : String)
    (hm : m.Typ = some t) :
    (t.Kind = Kind.Struct → t.Name.Name = N →
        argSpec ToSnake m = .ok (argName ToSnake m, N, "None")) ∧
      (∀ e : GoType, t.Kind = Kind.Pointer → t.Elem = some e → e.Kind = Kind.Struct →
        e.Name.Name = N →
        argSpec ToSnake m = .ok (argName ToSnake m, "Optional[" ++ N ++ "]", "None")) := by
  rw [argSpec_some ToSnake m t hm]
  refine ⟨fun hk hn => ?_, fun e hk he hek hn => ?_⟩
  · simp [argSpecOf, returnIf, land, kind_beq, hk, hn]
  · simp [argSpecOf, returnIf, land, kind_beq, hk, he, hek, hn]

theorem C3_argSpec_struct_witness :
    argSpec id (field "Inner" (structNamed "Bar" [])) =
        .ok (argName id (field "Inner" (structNamed "Bar" [])), "Bar", "None") ∧
      argSpec id (field "Ref" (pointerTo (structNamed "Bar" []))) =
        .ok (argName id (field "Ref" (pointerTo (structNamed "Bar" []))),
          "Optional[" ++ "Bar" ++ "]", "None") :=
  ⟨(C3_argSpec_struct id (field "Inner" (structNamed "Bar" [])) (structNamed "Bar" []) "Bar"
      rfl).1 rfl rfl,
   (C3_argSpec_struct id (field "Ref" (pointerTo (structNamed "Bar" [])))
      (pointerTo (structNamed "Bar" [])) "Bar" rfl).2 (structNamed "Bar" []) rfl rfl rfl rfl⟩

/-- C4 (the code departs from the claim): for a slice whose element type is the
struct `type string struct{}`, named "string", `argSpec` returns `List[str]`
and not `List[string]`: the slice-of-strings condition, which compares only the
element type's name, is tried before the slice-of-structs one. -/
theorem C4_argSpec_slice_of_struct_named_string :
    (sliceOf structNamedString).Kind = Kind.Slice ∧
      (sliceOf structNamedString).Elem = some structNamedString ∧
      structNamedString.Kind = Kind.Struct ∧ structNamedString.Name.Name = "string" ∧
      ∀ ToSnake : String → String,
        argSpec ToSnake (field "Items" (sliceOf structNamedString)) =
            .ok (ToSnake "Items", "List[str]", "None") ∧
          argSpec ToSnake (field "Items" (sliceOf structNamedString)) ≠
            .ok (ToSnake "Items", "List[" ++ "string" ++ "]", "None") := by
  refine ⟨rfl, rfl, rfl, rfl, fun ToSnake => ?_⟩
  have h : argSpec ToSnake (field "Items" (sliceOf structNamedString)) =
      .ok (ToSnake "Items", "List[str]", "None") := by
    simp [argSpec, argSpecOf, returnIf, land, kind_beq, argName, field, sliceOf, structNamedString,
      GoType.Kind, GoType.Elem, GoType.Name]
  refine ⟨h, ?_⟩
  rw [h]
  simp only [ne_eq, Outcome.ok.injEq, Prod.mk.injEq, true_and, and_true]
  decide

/-- Slices of structs: when the element struct is not called "string", the
result is `List[N]` with default `None`. -/
theorem argSpec_slice_of_struct (ToSnake : String → String) (m : Member) (t e : GoType)
    (hm : m.Typ = some t) (hk : t.Kind = Kind.Slice) (he : t.Elem = some e)
    (hek : e.Kind = Kind.Struct) (hne : e.Name.Name ≠ "string") :
    argSpec ToSnake m = .ok (argName ToSnake m, "List[" ++ e.Name.Name ++ "]", "None") := by
  rw [argSpec_some ToSnake m t hm]
  have hb : (e.Name.Name == "string") = false := beq_eq_false_iff_ne.mpr hne
  simp [argSpecOf, returnIf, land, kind_beq, hk, he, hek, hb]

/-- C5: pointer to builtin string, map from builtin string to builtin string and
slice of builtin string are classified without error as `Optional[str]`,
`Dict[str, str]` and `List[str]`, each with the default literal `None` (so
never `{}` or `[]`). -/
theorem C5_argSpec_string_containers (ToSnake : String → String) (m : Member) (t : GoType)
    (hm : m.Typ = some t) :
    (∀ e : GoType, t.Kind = Kind.Pointer → t.Elem = some e → isBuiltinNamed "string" e = true →
        argSpec ToSnake m = .ok (argName ToSnake m, "Optional[str]", "None")) ∧
      (∀ k e : GoType, t.Kind = Kind.Map → t.Key = some k → t.Elem = some e →
        isBuiltinNamed "string" k = true → isBuiltinNamed "string" e = true →
        argSpec ToSnake m = .ok (argName ToSnake m, "Dict[str, str]", "None")) ∧
      (∀ e : GoType, t.Kind = Kind.Slice → t.Elem = some e → isBuiltinNamed "string" e = true →
        argSpec ToSnake m = .ok (argName ToSnake m, "List[str]", "None")) ∧
      "None" ≠ "{}" ∧ "None" ≠ "[]" := by
  rw [argSpec_some ToSnake m t hm]
  simp only [isBuiltinNamed, Bool.and_eq_true, beq_iff_eq]
  refine ⟨fun e hk he hb => ?_, fun k e hk hky he hbk hbe => ?_, fun e hk he hb => ?_,
    by decide, by decide⟩
  · simp [argSpecOf, returnIf, land, kind_beq, hk, he, hb.1, hb.2]
  · simp [argSpecOf, returnIf, land, kind_beq, hk, he, hky, hbk.2, hbe.2]
  · simp [argSpecOf, returnIf, land, kind_beq, hk, he, hb.2]

theorem C5_argSpec_string_containers_witness :
    argSpec id (field "P" (pointerTo (builtin "string"))) =
        .ok (argName id (field "P" (pointerTo (builtin "string"))), "Optional[str]", "None") ∧
      argSpec id (field "Env" (mapOf (builtin "string") (builtin "string"))) =
        .ok (argName id (field "Env" (mapOf (builtin "string") (builtin "string"))),
          "Dict[str, str]", "None") ∧
      argSpec id (field "Args" (sliceOf (builtin "string"))) =
        .ok (argName id (field "Args" (sliceOf (builtin "string"))), "List[str]", "None") :=
  ⟨(C5_argSpec_string_containers id (field "P" (pointerTo (builtin "string")))
      (pointerTo (builtin "string")) rfl).1 (builtin "string") rfl rfl (by decide),
   (C5_argSpec_string_containers id (field "Env" (mapOf (builtin "string") (builtin "string")))
      (mapOf (builtin "string") (builtin "string")) rfl).2.1 (builtin "string") (builtin "string")
      rfl rfl rfl (by decide) (by decide),
   (C5_argSpec_string_containers id (field "Args" (sliceOf (builtin "string")))
      (sliceOf (builtin "string")) rfl).2.2.1 (builtin "string") rfl rfl (by decide)⟩

/-- C6: a member whose type is an alias of builtin string is classified exactly
as a member of the same field name whose type is builtin string: `(str, "")`,
without error. -/
theorem C6_argSpec_string_alias (ToSnake : String → String) (m m' : Member) (t u t' : GoType)
    (hm : m.Typ = some t) (hk : t.Kind = Kind.Alias) (hu : t.Underlying = some u)
    (hus : isBuiltinNamed "string" u = true)
    (hm' : m'.Typ = some t') (ht' : isBuiltinNamed "string" t' = true)
    (hname : m'.Name = m.Name) :
    argSpec ToSnake m = argSpec ToSnake m' ∧
      argSpec ToSnake m = .ok (argName ToSnake m, "str", "\"\"") := by
  simp only [isBuiltinNamed, Bool.and_eq_true, beq_iff_eq] at hus ht'
  have h1 : argSpec ToSnake m = .ok (argName ToSnake m, "str", "\"\"") := by
    rw [argSpec_some ToSnake m t hm]
    simp [argSpecOf, returnIf, land, kind_beq, hk, hu, hus.1, hus.2]
  have h2 : argSpec ToSnake m' = .ok (argName ToSnake m', "str", "\"\"") := by
    rw [argSpec_some ToSnake m' t' hm']
    simp [argSpecOf, returnIf, land, kind_beq, ht'.1, ht'.2]
  have h3 : argName ToSnake m' = argName ToSnake m := by
    simp [argName, hname]
  exact ⟨by rw [h1, h2, h3], h1⟩

theorem C6_argSpec_string_alias_witness :
    argSpec id (field "Mode" (aliasOf "Mode" (builtin "string"))) =
        argSpec id (field "Mode" (builtin "string")) ∧
      argSpec id (field "Mode" (aliasOf "Mode" (builtin "string"))) =
        .ok (argName id (field "Mode" (aliasOf "Mode" (builtin "string"))), "str", "\"\"") :=
  C6_argSpec_string_alias id (field "Mode" (aliasOf "Mode" (builtin "string")))
    (field "Mode" (builtin "string")) (aliasOf "Mode" (builtin "string")) (builtin "string")
    (builtin "string") rfl rfl rfl (by decide) rfl (by decide) rfl

/-- C7: `argName` is `spec_labels` for the member called "Labels",
`spec_anotations` for the member called "Annotations" and `strcase.ToSnake` of
the name for every other member; the name `argSpec` returns on success is
`argName` of the same member. -/
theorem C7_argName (ToSnake : String → String) (m : Member) :
    (m.Name = "Labels" → argName ToSnake m = "spec_labels") ∧
      (m.Name = "Annotations" → argName ToSnake m = "spec_anotations") ∧
      (m.Name ≠ "Labels" → m.Name ≠ "Annotations" → argName ToSnake m = ToSnake m.Name) ∧
      (∀ r, argSpec ToSnake m = .ok r → r.1 = argName ToSnake m) := by
  refine ⟨fun h => ?_, fun h => ?_, fun h1 h2 => ?_, fun r h => argSpec_name ToSnake m r h⟩
  · simp [argName, h]
  · simp [argName, h]
  · simp [argName, h1, h2]

theorem C7_argName_witness :
    argName lowerCase (field "Labels" (builtin "string")) = "spec_labels" ∧
      argName lowerCase (field "Annotations" (builtin "string")) = "spec_anotations" ∧
      argName lowerCase (field "Port" (builtin "int32")) = lowerCase "Port" ∧
      (argName lowerCase (field "Port" (builtin "int32")), "int", "0").1 =
        argName lowerCase (field "Port" (builtin "int32")) :=
  ⟨(C7_argName lowerCase (field "Labels" (builtin "string"))).1 rfl,
   (C7_argName lowerCase (field "Annotations" (builtin "string"))).2.1 rfl,
   (C7_argName lowerCase (field "Port" (builtin "int32"))).2.2.1 (by decide) (by decide),
   (C7_argName lowerCase (field "Port" (builtin "int32"))).2.2.2
     (argName lowerCase (field "Port" (builtin "int32")), "int", "0")
     (by simp [argSpec, argSpecOf, returnIf, land, kind_beq, field, builtin, GoType.Kind,
       GoType.Name])⟩

/-! ## Comment filtering: claim C8 -/

/-- The loop of `filterCommentTags`, started from any accumulated `result`,
appends the lines that are kept. -/
theorem filterCommentTags_loop (lines result : List String) :
    lines.foldl
        (fun result l => if HasPrefix (TrimSpace l) "+" then result else result ++ [l]) result =
      result ++ lines.filter (fun l => !HasPrefix (TrimSpace l) "+") := by
  induction lines generalizing result with
  | nil => simp
  | cons l rest ih =>
    rw [List.foldl_cons, ih]
    by_cases h : HasPrefix (TrimSpace l) "+" = true
    · simp [h]
    · simp [h]

/-- The result of `filterCommentTags` is the sublist of kept lines. -/
theorem filterCommentTags_eq_filter (lines : List String) :
    filterCommentTags lines = lines.filter (fun l => !HasPrefix (TrimSpace l) "+") := by
  unfold filterCommentTags
  rw [filterCommentTags_loop]
  simp

/-- The classifier reads only the name and the type of a member. -/
theorem argSpec_congr (ToSnake : String → String) (m m' : Member)
    (hn : m.Name = m'.Name) (ht : m.Typ = m'.Typ) : argSpec ToSnake m = argSpec ToSnake m' := by
  simp only [argSpec, argName, hn, ht]

/-- The parameter name is computed from the name of a member only. -/
theorem argName_congr (ToSnake : String → String) (m m' : Member)
    (hn : m.Name = m'.Name) : argName ToSnake m = argName ToSnake m' := by
  simp only [argName, hn]

/-- The parameter loop writes the same text for member lists that agree up to
their tag lines. -/
theorem writeParams_congr (ToSnake : String → String) (isTimeMember : Member → Bool)
    (tName : String) (ms ms' : List Member)
    (h : List.Forall₂ (sameFilteredMember isTimeMember) ms ms') (w : Writer) :
    writeParams ToSnake isTimeMember tName ms w = writeParams ToSnake isTimeMember tName ms' w := by
  induction h generalizing w with
  | nil => rfl
  | cons hm _ ih =>
    obtain ⟨hn, ht, hi, _⟩ := hm
    simp only [writeParams, hi, argSpec_congr ToSnake _ _ hn ht, ih]

/-- The documentation loop writes the same text for member lists that agree up
to their tag lines. -/
theorem writeDocs_congr (ToSnake : String → String) (isTimeMember : Member → Bool)
    (ms ms' : List Member)
    (h : List.Forall₂ (sameFilteredMember isTimeMember) ms ms') (w : Writer) :
    writeDocs ToSnake isTimeMember ms w = writeDocs ToSnake isTimeMember ms' w := by
  induction h generalizing w with
  | nil => rfl
  | cons hm _ ih =>
    obtain ⟨hn, _, hi, hc⟩ := hm
    simp only [writeDocs, hi, argName_congr ToSnake _ _ hn, hc, ih]

/-- C8: `filterCommentTags` returns exactly the lines whose trimmed text does
not begin with `+`, in their order and unmodified; no line of the result, once
trimmed, begins with `+`; and the three emitters read comment lines only
through the filter: types (and members) that agree once their comment lines are
filtered produce the same output on every writer. -/
theorem C8_filterCommentTags (lines : List String) :
    filterCommentTags lines = lines.filter (fun l => !HasPrefix (TrimSpace l) "+") ∧
      (∀ l ∈ filterCommentTags lines, HasPrefix (TrimSpace l) "+" = false) ∧
      (∀ (ToSnake : String → String) (isTimeMember : Member → Bool) (t t' : GoType) (w : Writer),
        t.Name.Name = t'.Name.Name →
        filterCommentTags t.CommentLines = filterCommentTags t'.CommentLines →
        WriteStarlarkMemberClass t w = WriteStarlarkMemberClass t' w ∧
        (List.Forall₂ (sameFilteredMember isTimeMember) t.Members t'.Members →
          WriteStarlarkMemberFunction ToSnake isTimeMember t w =
            WriteStarlarkMemberFunction ToSnake isTimeMember t' w) ∧
        (∀ spec spec' : GoType, getSpecMemberType t = some spec →
          getSpecMemberType t' = some spec' →
          List.Forall₂ (sameFilteredMember isTimeMember) spec.Members spec'.Members →
          WriteStarlarkFunction ToSnake isTimeMember t w =
            WriteStarlarkFunction ToSnake isTimeMember t' w)) := by
  refine ⟨filterCommentTags_eq_filter lines, ?_, ?_⟩
  · intro l hl
    rw [filterCommentTags_eq_filter, List.mem_filter] at hl
    simpa using hl.2
  · intro ToSnake isTimeMember t t' w hn hc
    refine ⟨?_, fun hms => ?_, fun spec spec' hs hs' hms => ?_⟩
    · simp only [WriteStarlarkMemberClass, hn, hc]
    · simp only [WriteStarlarkMemberFunction, hn, hc,
        writeParams_congr ToSnake isTimeMember _ _ _ hms,
        writeDocs_congr ToSnake isTimeMember _ _ hms]
    · simp only [WriteStarlarkFunction, hn, hc, hs, hs',
        writeParams_congr ToSnake isTimeMember _ _ _ hms,
        writeDocs_congr ToSnake isTimeMember _ _ hms]

theorem C8_filterCommentTags_witness :
    filterCommentTags ["Bar holds a flag.", "+k8s:deepcopy-gen=true", " \t+optional", "a+b"] =
        ["Bar holds a flag.", "a+b"] ∧
      WriteStarlarkMemberClass taggedBar Writer.buffer =
        WriteStarlarkMemberClass plainBar Writer.buffer ∧
      WriteStarlarkMemberFunction lowerCase (fun _ => false) taggedBar Writer.buffer =
        WriteStarlarkMemberFunction lowerCase (fun _ => false) plainBar Writer.buffer ∧
      WriteStarlarkFunction lowerCase (fun _ => false) taggedFoo Writer.buffer =
        WriteStarlarkFunction lowerCase (fun _ => false) plainFoo Writer.buffer :=
  ⟨(C8_filterCommentTags
      ["Bar holds a flag.", "+k8s:deepcopy-gen=true", " \t+optional", "a+b"]).1.trans
      (by decide),
   ((C8_filterCommentTags []).2.2 lowerCase (fun _ => false) taggedBar plainBar
      Writer.buffer rfl (by decide)).1,
   ((C8_filterCommentTags []).2.2 lowerCase (fun _ => false) taggedBar plainBar
      Writer.buffer rfl (by decide)).2.1
      (List.Forall₂.cons ⟨rfl, rfl, rfl, by decide⟩ List.Forall₂.nil),
   ((C8_filterCommentTags []).2.2 lowerCase (fun _ => false) taggedFoo plainFoo
      Writer.buffer rfl (by decide)).2.2 taggedBar plainBar rfl rfl
      (List.Forall₂.cons ⟨rfl, rfl, rfl, by decide⟩ List.Forall₂.nil)⟩

/-! ## Writers and the two loops -/

theorem emit_emit (w : Writer) (p q : String) : (w.emit p).emit q = w.emit (p ++ q) := by
  simp [Writer.emit, String.append_assoc]

theorem emit_empty (w : Writer) : w.emit "" = w := by
  simp [Writer.emit]

theorem emit_neverFails (w : Writer) (p : String) (hw : w.neverFails) :
    (w.emit p).neverFails := fun d q => hw d q

/-- A `Fprintf` the writer accepts is followed by the rest of the function. -/
theorem thenWrite_accept (w : Writer) (p : String) (rest : Writer → Writer × Outcome Unit)
    (h : w.refuse w.data p = none) : thenWrite (Fprintf w p) rest = rest (w.emit p) := by
  simp [thenWrite, Fprintf, h, Writer.emit]

/-- On a writer that never fails a `Fprintf` is followed by the rest of the
function. -/
theorem thenWrite_neverFails (w : Writer) (p : String) (rest : Writer → Writer × Outcome Unit)
    (hw : w.neverFails) : thenWrite (Fprintf w p) rest = rest (w.emit p) :=
  thenWrite_accept w p rest (hw _ _)

/-- A loop that ran to its end is followed by the rest of the function. -/
theorem thenLoop_done (w : Writer) (u : Unit) (rest : Writer → Writer × Outcome Unit) :
    thenLoop (w, .ok u) rest = rest w := rfl

/-- A `Fprintf` the writer refuses ends the function with the writer's error. -/
theorem thenWrite_refuse (w : Writer) (p e : String) (rest : Writer → Writer × Outcome Unit)
    (h : w.refuse w.data p = some e) : thenWrite (Fprintf w p) rest = (w, .error e) := by
  simp [thenWrite, Fprintf, h]

/-- When a function that starts with a `Fprintf` returns nil, the text was
accepted and the rest of the function returned nil. -/
theorem thenWrite_ok (w w' : Writer) (p : String) (rest : Writer → Writer × Outcome Unit)
    (h : thenWrite (Fprintf w p) rest = (w', .ok ())) :
    w.refuse w.data p = none ∧ rest (w.emit p) = (w', .ok ()) := by
  cases hr : w.refuse w.data p with
  | none => exact ⟨rfl, by rw [thenWrite_accept w p rest hr] at h; exact h⟩
  | some e =>
    rw [thenWrite_refuse w p e rest hr] at h
    simp at h

/-- When a loop followed by more code returns nil, the loop ran to its end. -/
theorem thenLoop_ok (r : Writer × Outcome Unit) (w' : Writer)
    (rest : Writer → Writer × Outcome Unit) (h : thenLoop r rest = (w', .ok ())) :
    ∃ w1, r = (w1, .ok ()) ∧ rest w1 = (w', .ok ()) := by
  obtain ⟨w1, o⟩ := r
  cases o with
  | ok u => exact ⟨w1, rfl, h⟩
  | error e => simp [thenLoop] at h
  | panic => simp [thenLoop] at h

/-- The parameter loop, when it runs to its end, has written one parameter
line per member that is not skipped, with what `argSpec` returned for it. -/
theorem writeParams_ok (ToSnake : String → String) (isTimeMember : Member → Bool)
    (tName : String) (ms : List Member) (rs : List (String × String × String))
    (hrs : List.Forall₂ (fun m r => argSpec ToSnake m = .ok r) (nonTimeMembers isTimeMember ms) rs)
    (w w' : Writer) (h : writeParams ToSnake isTimeMember tName ms w = (w', .ok ())) :
    w' = w.emit (concatLines (rs.map paramLine)) := by
  induction ms generalizing rs w with
  | nil =>
    cases hrs
    simp only [writeParams, Prod.mk.injEq, and_true] at h
    simp [concatLines, emit_empty, h]
  | cons m rest ih =>
    by_cases ht : isTimeMember m = true
    · simp only [nonTimeMembers, List.filter_cons, ht, Bool.not_true] at hrs
      simp only [writeParams, ht, if_true] at h
      exact ih rs hrs w h
    · simp only [nonTimeMembers, List.filter_cons, ht, Bool.not_false, if_true] at hrs
      cases hrs with
      | cons hm hrest =>
        rename_i r rs'
        simp only [writeParams, ht, hm] at h
        cases hr : w.refuse w.data ("\n  " ++ r.1 ++ ": " ++ r.2.1 ++ " = " ++ r.2.2 ++ ",") with
        | some e => simp [Fprintf, hr] at h
        | none =>
          simp only [Fprintf, hr] at h
          have := ih rs' hrest _ h
          rw [this]
          simp [Writer.emit, concatLines, paramLine, String.append_assoc]

/-- On a writer that never fails the parameter loop runs to its end when every
member that is not skipped classifies. -/
theorem writeParams_neverFails (ToSnake : String → String) (isTimeMember : Member → Bool)
    (tName : String) (ms : List Member) (rs : List (String × String × String))
    (hrs : List.Forall₂ (fun m r => argSpec ToSnake m = .ok r) (nonTimeMembers isTimeMember ms) rs)
    (w : Writer) (hw : w.neverFails) :
    writeParams ToSnake isTimeMember tName ms w =
      (w.emit (concatLines (rs.map paramLine)), .ok ()) := by
  induction ms generalizing rs w with
  | nil =>
    cases hrs
    simp [writeParams, concatLines, emit_empty]
  | cons m rest ih =>
    by_cases ht : isTimeMember m = true
    · simp only [nonTimeMembers, List.filter_cons, ht, Bool.not_true] at hrs
      simp only [writeParams, ht, if_true]
      exact ih rs hrs w hw
    · simp only [nonTimeMembers, List.filter_cons, ht, Bool.not_false, if_true] at hrs
      cases hrs with
      | cons hm hrest =>
        rename_i r rs'
        simp only [writeParams, ht, hm, Fprintf, hw _ _]
        have := ih rs' hrest (w.emit (paramLine r)) (emit_neverFails w _ hw)
        simp only [Writer.emit, paramLine] at this
        rw [this]
        simp [Writer.emit, concatLines, paramLine, String.append_assoc]

/-- The documentation loop, when it runs to its end, has written one entry per
member that is not skipped. -/
theorem writeDocs_ok (ToSnake : String → String) (isTimeMember : Member → Bool)
    (ms : List Member) (w w' : Writer)
    (h : writeDocs ToSnake isTimeMember ms w = (w', .ok ())) :
    w' = w.emit (concatLines ((nonTimeMembers isTimeMember ms).map (docEntry ToSnake))) := by
  induction ms generalizing w with
  | nil =>
    simp only [writeDocs, Prod.mk.injEq, and_true] at h
    simp [nonTimeMembers, concatLines, emit_empty, h]
  | cons m rest ih =>
    by_cases ht : isTimeMember m = true
    · simp only [writeDocs, ht, if_true] at h
      simpa [nonTimeMembers, ht] using ih w h
    · simp only [writeDocs, ht] at h
      cases hr : w.refuse w.data (docEntry ToSnake m) with
      | some e =>
        simp only [docEntry] at hr
        simp [Fprintf, hr] at h
      | none =>
        simp only [docEntry] at hr
        simp only [Fprintf, hr] at h
        have := ih _ h
        rw [this]
        simp [nonTimeMembers, ht, Writer.emit, concatLines, docEntry, String.append_assoc]

/-- On a writer that never fails the documentation loop runs to its end. -/
theorem writeDocs_neverFails (ToSnake : String → String) (isTimeMember : Member → Bool)
    (ms : List Member) (w : Writer) (hw : w.neverFails) :
    writeDocs ToSnake isTimeMember ms w =
      (w.emit (concatLines ((nonTimeMembers isTimeMember ms).map (docEntry ToSnake))), .ok ()) := by
  induction ms generalizing w with
  | nil => simp [writeDocs, nonTimeMembers, concatLines, emit_empty]
  | cons m rest ih =>
    by_cases ht : isTimeMember m = true
    · simp only [writeDocs, ht, if_true]
      simpa [nonTimeMembers, ht] using ih w hw
    · simp only [writeDocs, ht, Fprintf, hw _ _]
      have := ih (w.emit (docEntry ToSnake m)) (emit_neverFails w _ hw)
      simp only [Writer.emit, docEntry] at this
      rw [this]
      simp [nonTimeMembers, ht, Writer.emit, concatLines, docEntry, String.append_assoc]

/-! ## The function stub of a target: claims C9 and C10 -/

/-- When `WriteStarlarkFunction` returns nil, the writer has accepted exactly
`functionText`. -/
theorem WriteStarlarkFunction_ok (ToSnake : String → String) (isTimeMember : Member → Bool)
    (t spec : GoType) (rs : List (String × String × String))
    (hs : getSpecMemberType t = some spec)
    (hrs : List.Forall₂ (fun m r => argSpec ToSnake m = .ok r)
      (nonTimeMembers isTimeMember spec.Members) rs)
    (w w' : Writer) (h : WriteStarlarkFunction ToSnake isTimeMember t w = (w', .ok ())) :
    w' = w.emit (functionText ToSnake isTimeMember t spec rs) := by
  simp only [WriteStarlarkFunction, hs] at h
  obtain ⟨_, h⟩ := thenWrite_ok _ _ _ _ h
  obtain ⟨w1, h1, h⟩ := thenLoop_ok _ _ _ h
  obtain ⟨_, h⟩ := thenWrite_ok _ _ _ _ h
  obtain ⟨w2, h2, h⟩ := thenLoop_ok _ _ _ h
  obtain ⟨_, h⟩ := thenWrite_ok _ _ _ _ h
  have e1 := writeParams_ok ToSnake isTimeMember _ _ rs hrs _ _ h1
  have e2 := writeDocs_ok ToSnake isTimeMember _ _ _ h2
  simp only [Prod.mk.injEq, and_true] at h
  rw [← h, e2, e1]
  simp only [emit_emit, functionText, String.append_assoc]

/-- On a writer that never fails, `WriteStarlarkFunction` returns nil for a
target that has a Spec whose included fields classify. -/
theorem WriteStarlarkFunction_neverFails (ToSnake : String → String)
    (isTimeMember : Member → Bool) (t spec : GoType) (rs : List (String × String × String))
    (hs : getSpecMemberType t = some spec)
    (hrs : List.Forall₂ (fun m r => argSpec ToSnake m = .ok r)
      (nonTimeMembers isTimeMember spec.Members) rs)
    (w : Writer) (hw : w.neverFails) :
    WriteStarlarkFunction ToSnake isTimeMember t w =
      (w.emit (functionText ToSnake isTimeMember t spec rs), .ok ()) := by
  simp only [WriteStarlarkFunction, hs]
  rw [thenWrite_neverFails _ _ _ hw,
    writeParams_neverFails ToSnake isTimeMember _ _ rs hrs _ (emit_neverFails _ _ hw),
    thenLoop_done,
    thenWrite_neverFails _ _ _ (emit_neverFails _ _ (emit_neverFails _ _ hw)),
    writeDocs_neverFails ToSnake isTimeMember _ _
      (emit_neverFails _ _ (emit_neverFails _ _ (emit_neverFails _ _ hw))),
    thenLoop_done,
    thenWrite_neverFails _ _ _ (emit_neverFails _ _ (emit_neverFails _ _
      (emit_neverFails _ _ (emit_neverFails _ _ hw))))]
  simp only [emit_emit, functionText, String.append_assoc]

/-- C9: for a target that has a Spec member whose non-time fields classify as
`rs` (one result per field, in declaration order), `WriteStarlarkFunction`
returns nil on a writer that never fails, and whenever it returns nil the text
it has written begins with `def`, the snake_case name, the three fixed
parameters and then exactly the parameter lines `name: type = default,` of
`rs`, closed by `):`. -/
theorem C9_WriteStarlarkFunction_signature (ToSnake : String → String)
    (isTimeMember : Member → Bool) (t spec : GoType) (rs : List (String × String × String))
    (w : Writer) (hs : getSpecMemberType t = some spec)
    (hrs : List.Forall₂ (fun m r => argSpec ToSnake m = .ok r)
      (nonTimeMembers isTimeMember spec.Members) rs) :
    (w.neverFails → (WriteStarlarkFunction ToSnake isTimeMember t w).2 = .ok ()) ∧
      (∀ w', WriteStarlarkFunction ToSnake isTimeMember t w = (w', .ok ()) →
        ∃ rest, w'.data = w.data ++ ("\ndef " ++ ToSnake t.Name.Name ++
          "(\n  name: str,\n  labels: Dict[str, str] = None,\n  annotations: Dict[str, str] = None," ++
          concatLines (rs.map fun r => "\n  " ++ r.1 ++ ": " ++ r.2.1 ++ " = " ++ r.2.2 ++ ",") ++
          "\n):" ++ rest)) ∧
      rs.length = (nonTimeMembers isTimeMember spec.Members).length := by
  refine ⟨fun hw => ?_, fun w' h => ?_, hrs.length_eq.symm⟩
  · rw [WriteStarlarkFunction_neverFails ToSnake isTimeMember t spec rs hs hrs w hw]
  · rw [WriteStarlarkFunction_ok ToSnake isTimeMember t spec rs hs hrs w w' h]
    refine ⟨"\n  \"\"\"\n  " ++ (Join (filterCommentTags t.CommentLines) "\n  " ++
      ("\n\n  Args:\n    name: The name in the Object metadata.\n    labels: A set of key/value pairs in the Object metadata for grouping objects.\n    annotations: A set of key/value pairs in the Object metadata for attaching data to objects." ++
      (concatLines ((nonTimeMembers isTimeMember spec.Members).map (docEntry ToSnake)) ++
        "\n\"\"\"\n  pass"))), ?_⟩
    have hlit : "\n):\n  \"\"\"\n  " = "\n):" ++ "\n  \"\"\"\n  " := by decide
    have hpl : (fun r : String × String × String =>
        "\n  " ++ r.1 ++ ": " ++ r.2.1 ++ " = " ++ r.2.2 ++ ",") = paramLine := rfl
    rw [hpl]
    simp only [Writer.emit, functionText, String.append_assoc, hlit]

/-- The fields of `FooSpec` that are not skipped, and what `argSpec` returns for
them when names are lower-cased. -/
theorem fooSpec_classifies :
    List.Forall₂ (fun m r => argSpec lowerCase m = .ok r)
      (nonTimeMembers typeCalledTime fooSpec.Members)
      [("name", "str", "\"\""), ("count", "int", "0"), ("children", "List[Bar]", "None")] := by
  have h : nonTimeMembers typeCalledTime fooSpec.Members =
      [field "Name" (builtin "string"), field "Count" (builtin "int32"),
        field "Children" (sliceOf (structNamed "Bar" []))] := rfl
  rw [h]
  exact .cons rfl (.cons rfl (.cons rfl .nil))

theorem C9_WriteStarlarkFunction_signature_witness :
    (WriteStarlarkFunction lowerCase typeCalledTime foo Writer.buffer).2 = .ok () ∧
      [("name", "str", "\"\""), ("count", "int", "0"), ("children", "List[Bar]", "None")].length =
        (nonTimeMembers typeCalledTime fooSpec.Members).length :=
  ⟨(C9_WriteStarlarkFunction_signature lowerCase typeCalledTime foo fooSpec
      [("name", "str", "\"\""), ("count", "int", "0"), ("children", "List[Bar]", "None")]
      Writer.buffer rfl fooSpec_classifies).1 (fun _ _ => rfl),
   (C9_WriteStarlarkFunction_signature lowerCase typeCalledTime foo fooSpec
      [("name", "str", "\"\""), ("count", "int", "0"), ("children", "List[Bar]", "None")]
      Writer.buffer rfl fooSpec_classifies).2.2⟩

/-- An error that comes out of `if c { return r }; rest` comes out of `rest`. -/
theorem returnIf_error_imp {α : Type} (P : String → Prop) (c : Option Bool) (r : α)
    (rest : Outcome α) (hrest : ∀ e, rest = .error e → P e) :
    ∀ e, returnIf c r rest = .error e → P e := by
  intro e h
  match c, h with
  | some false, h => exact hrest e h

/-- The only error of `argSpec` is the one of its last line. -/
theorem argSpec_error_form (ToSnake : String → String) (m : Member) (e : String)
    (h : argSpec ToSnake m = .error e) :
    ∃ t, m.Typ = some t ∧
      e = "Unrecognized type of member " ++ m.Name ++ ": " ++ t.Name.String := by
  cases hm : m.Typ with
  | none => simp [argSpec, hm] at h
  | some t =>
    rw [argSpec_some ToSnake m t hm] at h
    refine ⟨t, rfl, ?_⟩
    revert e
    unfold argSpecOf
    repeat' (first
      | (refine returnIf_error_imp
          (fun e => e = "Unrecognized type of member " ++ m.Name ++ ": " ++ t.Name.String)
          _ _ _ ?_)
      | (intro e h; exact (Outcome.error.inj h).symm))

/-- The error of `argSpec` carries the name of the member. -/
theorem argSpec_error_names_member (ToSnake : String → String) (m : Member) (e : String)
    (h : argSpec ToSnake m = .error e) : occursIn m.Name e := by
  obtain ⟨t, _, he⟩ := argSpec_error_form ToSnake m e h
  rw [he]
  exact occursIn_append_left _ _ _ (occursIn_append_left _ _ _
    (occursIn_append_right _ _ _ (occursIn_self _)))

/-- No panic comes out of `if c { return r }; rest` when evaluating `c` does not
panic and `rest` does not. -/
theorem returnIf_ne_panic {α : Type} (c : Option Bool) (r : α) (rest : Outcome α)
    (hc : c.isSome = true) (hrest : rest ≠ .panic) : returnIf c r rest ≠ .panic := by
  match c, hc with
  | some true, _ => simp [returnIf]
  | some false, _ => simpa [returnIf] using hrest

/-- A guarded condition on a component does not panic when the component is
there whenever the guard holds. -/
theorem land_map_isSome {α : Type} (a : Bool) (o : Option α) (f : α → Bool)
    (h : a = true → o.isSome = true) : (land a (o.map f)).isSome = true := by
  cases a <;> cases o <;> simp_all [land]

/-- `argSpec` does not panic on a well-formed member. -/
theorem argSpec_ne_panic (ToSnake : String → String) (m : Member)
    (h : memberWellFormed m = true) : argSpec ToSnake m ≠ .panic := by
  unfold memberWellFormed at h
  unfold argSpec
  match hm : m.Typ, h with
  | some t, h =>
    simp only [Option.any_some, componentsPresent, Bool.and_eq_true, Bool.or_eq_true,
      bne_iff_ne, ne_eq] at h
    obtain ⟨⟨⟨p1, p2⟩, p3⟩, p4⟩ := h
    have hA : (t.Kind == Kind.Alias) = true → t.Underlying.isSome = true := by
      intro hk; simp_all
    have hP : (t.Kind == Kind.Pointer) = true → t.Elem.isSome = true := by
      intro hk; simp_all
    have hS : (t.Kind == Kind.Slice) = true → t.Elem.isSome = true := by
      intro hk; simp_all
    have hM : (land (t.Kind == Kind.Map)
        (t.Elem.bind fun e => land (e.Name.Name == "string")
          (t.Key.map fun k => k.Name.Name == "string"))).isSome = true := by
      cases hk : (t.Kind == Kind.Map) <;> cases he : t.Elem <;> cases hky : t.Key <;>
        simp_all [land]
      split <;> rfl
    unfold argSpecOf
    refine returnIf_ne_panic _ _ _ rfl ?_
    refine returnIf_ne_panic _ _ _ (land_map_isSome _ _ _ hA) ?_
    refine returnIf_ne_panic _ _ _ (land_map_isSome _ _ _ hP) ?_
    refine returnIf_ne_panic _ _ _ rfl ?_
    refine returnIf_ne_panic _ _ _ rfl ?_
    refine returnIf_ne_panic _ _ _ hM ?_
    refine returnIf_ne_panic _ _ _ (land_map_isSome _ _ _ hS) ?_
    refine returnIf_ne_panic _ _ _ rfl ?_
    refine returnIf_ne_panic _ _ _ (land_map_isSome _ _ _ hP) ?_
    refine returnIf_ne_panic _ _ _ (land_map_isSome _ _ _ hS) ?_
    simp

/-- `getSpecMemberType` returns nil exactly when no member is called "Spec",
for a type whose members all have a type. -/
theorem getSpecMemberTypeLoop_none (ms : List Member)
    (hty : ∀ m ∈ ms, m.Typ.isSome = true) :
    getSpecMemberTypeLoop ms = none ↔ ∀ m ∈ ms, m.Name ≠ "Spec" := by
  induction ms with
  | nil => simp [getSpecMemberTypeLoop]
  | cons m rest ih =>
    have ih := ih (fun x hx => hty x (List.mem_cons_of_mem _ hx))
    have hm := hty m (List.mem_cons_self _ _)
    by_cases hn : m.Name = "Spec"
    · simp only [getSpecMemberTypeLoop, hn, if_true, List.mem_cons, ne_eq, forall_eq_or_imp,
        not_true_eq_false, false_and, iff_false]
      intro h
      simp [h] at hm
    · simp [getSpecMemberTypeLoop, hn, ih]

/-- Every element of the left list of related lists has a partner. -/
theorem forall₂_left_exists {α β : Type} {R : α → β → Prop} {l₁ : List α} {l₂ : List β}
    (h : List.Forall₂ R l₁ l₂) : ∀ a ∈ l₁, ∃ b, R a b := by
  induction h with
  | nil => intro a ha; cases ha
  | cons hab _ ih =>
    intro a ha
    rcases List.mem_cons.mp ha with rfl | ha
    · exact ⟨_, hab⟩
    · exact ih a ha

/-- On a writer that never fails, and when no member makes `argSpec` panic, the
parameter loop either runs to its end, every included member classifying, or
returns the wrapped error of a member that is not skipped. -/
theorem writeParams_neverFails_cases (ToSnake : String → String) (isTimeMember : Member → Bool)
    (tName : String) (ms : List Member) (w : Writer) (hw : w.neverFails)
    (hwf : ∀ m ∈ ms, isTimeMember m = false → argSpec ToSnake m ≠ .panic) :
    (∃ rs, List.Forall₂ (fun m r => argSpec ToSnake m = .ok r) (nonTimeMembers isTimeMember ms) rs ∧
        writeParams ToSnake isTimeMember tName ms w =
          (w.emit (concatLines (rs.map paramLine)), .ok ())) ∨
      (∃ m ∈ ms, isTimeMember m = false ∧ ∃ e w', argSpec ToSnake m = .error e ∧
        writeParams ToSnake isTimeMember tName ms w =
          (w', .error ("generating type " ++ tName ++ ": " ++ e))) := by
  induction ms generalizing w with
  | nil =>
    exact Or.inl ⟨[], by simp [nonTimeMembers], by simp [writeParams, concatLines, emit_empty]⟩
  | cons m rest ih =>
    have hwf' : ∀ x ∈ rest, isTimeMember x = false → argSpec ToSnake x ≠ .panic :=
      fun x hx => hwf x (List.mem_cons_of_mem _ hx)
    by_cases ht : isTimeMember m = true
    · rcases ih w hw hwf' with ⟨rs, hrs, hok⟩ | ⟨x, hx, hxt, e, w', he, herr⟩
      · exact Or.inl ⟨rs, by simpa [nonTimeMembers, ht] using hrs,
          by simpa [writeParams, ht] using hok⟩
      · exact Or.inr ⟨x, List.mem_cons_of_mem _ hx, hxt, e, w', he,
          by simpa [writeParams, ht] using herr⟩
    · have htf : isTimeMember m = false := by simpa using ht
      cases hm : argSpec ToSnake m with
      | panic => exact absurd hm (hwf m (List.mem_cons_self _ _) htf)
      | error e =>
        exact Or.inr ⟨m, List.mem_cons_self _ _, htf, e, w, hm, by simp [writeParams, htf, hm]⟩
      | ok r =>
        have hstep : writeParams ToSnake isTimeMember tName (m :: rest) w =
            writeParams ToSnake isTimeMember tName rest (w.emit (paramLine r)) := by
          simp [writeParams, htf, hm, Fprintf, hw _ _, Writer.emit, paramLine]
        rcases ih (w.emit (paramLine r)) (emit_neverFails w _ hw) hwf' with
          ⟨rs, hrs, hok⟩ | ⟨x, hx, hxt, e, w', he, herr⟩
        · refine Or.inl ⟨r :: rs, ?_, ?_⟩
          · simpa [nonTimeMembers, htf] using And.intro hm hrs
          · rw [hstep, hok, emit_emit]
            simp [concatLines]
        · exact Or.inr ⟨x, List.mem_cons_of_mem _ hx, hxt, e, w', he, by rw [hstep, herr]⟩

/-- Without a Spec member `WriteStarlarkFunction` writes nothing and returns
the error that names the type. -/
theorem WriteStarlarkFunction_no_spec (ToSnake : String → String) (isTimeMember : Member → Bool)
    (t : GoType) (w : Writer) (hs : getSpecMemberType t = none) :
    WriteStarlarkFunction ToSnake isTimeMember t w =
      (w, .error ("type has no spec: " ++ t.Name.Name)) := by
  simp only [WriteStarlarkFunction, hs]

/-- On a writer that never fails, for a target with a Spec none of whose
included fields makes `argSpec` panic, `WriteStarlarkFunction` either writes
`functionText` and returns nil, or returns the wrapped error of an included
field that fails classification. -/
theorem WriteStarlarkFunction_neverFails_cases (ToSnake : String → String)
    (isTimeMember : Member → Bool) (t spec : GoType) (w : Writer) (hw : w.neverFails)
    (hs : getSpecMemberType t = some spec)
    (hwf : ∀ m ∈ spec.Members, isTimeMember m = false → argSpec ToSnake m ≠ .panic) :
    (∃ rs, List.Forall₂ (fun m r => argSpec ToSnake m = .ok r)
          (nonTimeMembers isTimeMember spec.Members) rs ∧
        WriteStarlarkFunction ToSnake isTimeMember t w =
          (w.emit (functionText ToSnake isTimeMember t spec rs), .ok ())) ∨
      (∃ m ∈ spec.Members, isTimeMember m = false ∧ ∃ e w', argSpec ToSnake m = .error e ∧
        WriteStarlarkFunction ToSnake isTimeMember t w =
          (w', .error ("generating type " ++ t.Name.Name ++ ": " ++ e))) := by
  rcases writeParams_neverFails_cases ToSnake isTimeMember t.Name.Name spec.Members
      (w.emit ("\ndef " ++ ToSnake t.Name.Name ++
        "(\n  name: str,\n  labels: Dict[str, str] = None,\n  annotations: Dict[str, str] = None,"))
      (emit_neverFails w _ hw) hwf with
    ⟨rs, hrs, _⟩ | ⟨m, hm, hmt, e, w', he, herr⟩
  · exact Or.inl ⟨rs, hrs,
      WriteStarlarkFunction_neverFails ToSnake isTimeMember t spec rs hs hrs w hw⟩
  · refine Or.inr ⟨m, hm, hmt, e, w', he, ?_⟩
    simp only [WriteStarlarkFunction, hs]
    rw [thenWrite_neverFails _ _ _ hw, herr]
    rfl

/-- C10: on a writer that never fails, and for a well-formed target (every
member has a type, and the included Spec fields have the component pointers of
their kind), `WriteStarlarkFunction` returns an error exactly when the target
has no member called "Spec" or some non-time field of the Spec member fails
classification by `argSpec`; without a Spec the message names the target type,
and with a Spec it names the target type and a non-time field that fails. -/
theorem C10_WriteStarlarkFunction_error (ToSnake : String → String)
    (isTimeMember : Member → Bool) (t : GoType) (w : Writer) (hw : w.neverFails)
    (hty : ∀ m ∈ t.Members, m.Typ.isSome = true)
    (hwf : ∀ spec, getSpecMemberType t = some spec →
      ∀ m ∈ spec.Members, isTimeMember m = false → memberWellFormed m = true) :
    ((∃ msg, (WriteStarlarkFunction ToSnake isTimeMember t w).2 = .error msg) ↔
        ((∀ m ∈ t.Members, m.Name ≠ "Spec") ∨
          ∃ spec, getSpecMemberType t = some spec ∧
            ∃ m ∈ spec.Members, isTimeMember m = false ∧ ∃ e, argSpec ToSnake m = .error e)) ∧
      ((∀ m ∈ t.Members, m.Name ≠ "Spec") →
        ∃ msg, (WriteStarlarkFunction ToSnake isTimeMember t w).2 = .error msg ∧
          occursIn t.Name.Name msg) ∧
      (∀ spec, getSpecMemberType t = some spec →
        ∀ msg, (WriteStarlarkFunction ToSnake isTimeMember t w).2 = .error msg →
          ∃ m ∈ spec.Members, isTimeMember m = false ∧ (∃ e, argSpec ToSnake m = .error e) ∧
            occursIn t.Name.Name msg ∧ occursIn m.Name msg) := by
  have hnone : getSpecMemberType t = none ↔ ∀ m ∈ t.Members, m.Name ≠ "Spec" :=
    getSpecMemberTypeLoop_none t.Members hty
  have hcases : ∀ spec, getSpecMemberType t = some spec → _ := fun spec hs =>
    WriteStarlarkFunction_neverFails_cases ToSnake isTimeMember t spec w hw hs
      (fun m hm hmt => argSpec_ne_panic ToSnake m (hwf spec hs m hm hmt))
  have hthird : ∀ spec, getSpecMemberType t = some spec →
      ∀ msg, (WriteStarlarkFunction ToSnake isTimeMember t w).2 = .error msg →
        ∃ m ∈ spec.Members, isTimeMember m = false ∧ (∃ e, argSpec ToSnake m = .error e) ∧
          occursIn t.Name.Name msg ∧ occursIn m.Name msg := by
    intro spec hs msg hmsg
    rcases hcases spec hs with ⟨rs, _, hok⟩ | ⟨m, hm, hmt, e, w', he, herr⟩
    · rw [hok] at hmsg
      exact absurd hmsg (by simp)
    · rw [herr] at hmsg
      have hmsg' : "generating type " ++ t.Name.Name ++ ": " ++ e = msg := by
        simpa using hmsg
      subst hmsg'
      refine ⟨m, hm, hmt, ⟨e, he⟩, ?_, ?_⟩
      · exact occursIn_append_left _ _ _ (occursIn_append_left _ _ _
          (occursIn_append_right _ _ _ (occursIn_self _)))
      · exact occursIn_append_right _ _ _ (argSpec_error_names_member ToSnake m e he)
  have hsecond : (∀ m ∈ t.Members, m.Name ≠ "Spec") →
      ∃ msg, (WriteStarlarkFunction ToSnake isTimeMember t w).2 = .error msg ∧
        occursIn t.Name.Name msg := by
    intro h
    refine ⟨"type has no spec: " ++ t.Name.Name, ?_, occursIn_append_right _ _ _ (occursIn_self _)⟩
    rw [WriteStarlarkFunction_no_spec ToSnake isTimeMember t w (hnone.mpr h)]
  refine ⟨⟨?_, ?_⟩, hsecond, hthird⟩
  · rintro ⟨msg, hmsg⟩
    cases hs : getSpecMemberType t with
    | none => exact Or.inl (hnone.mp hs)
    | some spec =>
      obtain ⟨m, hm, hmt, he, _⟩ := hthird spec hs msg hmsg
      exact Or.inr ⟨spec, rfl, m, hm, hmt, he⟩
  · rintro (h | ⟨spec, hs, m, hm, hmt, e, he⟩)
    · obtain ⟨msg, hmsg, _⟩ := hsecond h
      exact ⟨msg, hmsg⟩
    · rcases hcases spec hs with ⟨rs, hrs, _⟩ | ⟨_, _, _, e', w', _, herr⟩
      · obtain ⟨r, hr⟩ := forall₂_left_exists hrs m
          (by simp [nonTimeMembers, hm, hmt])
        rw [he] at hr
        exact absurd hr (by simp)
      · exact ⟨_, by rw [herr]⟩

theorem C10_WriteStarlarkFunction_error_witness :
    (∃ msg, (WriteStarlarkFunction lowerCase typeCalledTime bad Writer.buffer).2 = .error msg) ∧
      (∃ msg, (WriteStarlarkFunction lowerCase typeCalledTime noSpec Writer.buffer).2 =
          .error msg ∧ occursIn "NoSpec" msg) ∧
      (∃ m ∈ badSpec.Members, typeCalledTime m = false ∧
        (∃ e, argSpec lowerCase m = .error e) ∧
        occursIn "Bad" "generating type Bad: Unrecognized type of member Size: int64" ∧
        occursIn m.Name "generating type Bad: Unrecognized type of member Size: int64") :=
  ⟨(C10_WriteStarlarkFunction_error lowerCase typeCalledTime bad Writer.buffer (fun _ _ => rfl)
      (by simp [bad, structNamed, GoType.Members, field])
      (by
        intro spec hs
        have h : getSpecMemberType bad = some badSpec := rfl
        rw [h] at hs
        cases hs
        simp [badSpec, structNamed, GoType.Members, field, memberWellFormed, builtin,
          componentsPresent, GoType.Kind, kind_beq])).1.mpr
      (Or.inr ⟨badSpec, rfl, field "Size" (builtin "int64"),
        by simp [badSpec, structNamed, GoType.Members], rfl, _, rfl⟩),
   (C10_WriteStarlarkFunction_error lowerCase typeCalledTime noSpec Writer.buffer
      (fun _ _ => rfl)
      (by simp [noSpec, structNamed, GoType.Members, field])
      (by
        intro spec hs
        have h : getSpecMemberType noSpec = none := rfl
        rw [h] at hs
        cases hs)).2.1
      (by simp [noSpec, structNamed, GoType.Members, field]),
   (C10_WriteStarlarkFunction_error lowerCase typeCalledTime bad Writer.buffer (fun _ _ => rfl)
      (by simp [bad, structNamed, GoType.Members, field])
      (by
        intro spec hs
        have h : getSpecMemberType bad = some badSpec := rfl
        rw [h] at hs
        cases hs
        simp [badSpec, structNamed, GoType.Members, field, memberWellFormed, builtin,
          componentsPresent, GoType.Kind, kind_beq])).2.2 badSpec rfl
      "generating type Bad: Unrecognized type of member Size: int64" rfl⟩

/-! ## Time-valued fields: claim C11 -/

/-- The members that are kept are not time-valued. -/
theorem nonTimeMembers_not_time (isTimeMember : Member → Bool) (ms : List Member) :
    ∀ m ∈ nonTimeMembers isTimeMember ms, isTimeMember m = false := by
  intro m hm
  simpa [nonTimeMembers] using (List.mem_filter.mp hm).2

/-- Removing the time-valued members twice is removing them once. -/
theorem nonTimeMembers_idem (isTimeMember : Member → Bool) (ms : List Member) :
    nonTimeMembers isTimeMember (nonTimeMembers isTimeMember ms) =
      nonTimeMembers isTimeMember ms := by
  simp [nonTimeMembers]

/-- The parameter loop does the same on a member list and on the list without
its time-valued members. -/
theorem writeParams_nonTime (ToSnake : String → String) (isTimeMember : Member → Bool)
    (tName : String) (ms : List Member) (w : Writer) :
    writeParams ToSnake isTimeMember tName ms w =
      writeParams ToSnake isTimeMember tName (nonTimeMembers isTimeMember ms) w := by
  induction ms generalizing w with
  | nil => rfl
  | cons m rest ih =>
    by_cases ht : isTimeMember m = true
    · simp only [nonTimeMembers, List.filter_cons, ht, Bool.not_true]
      simp only [writeParams, ht, if_true]
      exact ih w
    · have hf : isTimeMember m = false := by simpa using ht
      simp only [nonTimeMembers, List.filter_cons, hf, Bool.not_false, if_true]
      simp only [writeParams, hf]
      cases argSpec ToSnake m with
      | panic => rfl
      | error e => rfl
      | ok r =>
        obtain ⟨n, ty, d⟩ := r
        simp only [Bool.false_eq_true, if_false]
        cases hr : Fprintf w ("\n  " ++ n ++ ": " ++ ty ++ " = " ++ d ++ ",") with
        | mk w1 o =>
          cases o with
          | some e => rfl
          | none => exact ih w1

/-- The documentation loop does the same on a member list and on the list
without its time-valued members. -/
theorem writeDocs_nonTime (ToSnake : String → String) (isTimeMember : Member → Bool)
    (ms : List Member) (w : Writer) :
    writeDocs ToSnake isTimeMember ms w =
      writeDocs ToSnake isTimeMember (nonTimeMembers isTimeMember ms) w := by
  induction ms generalizing w with
  | nil => rfl
  | cons m rest ih =>
    by_cases ht : isTimeMember m = true
    · simp only [nonTimeMembers, List.filter_cons, ht, Bool.not_true]
      simp only [writeDocs, ht, if_true]
      exact ih w
    · have hf : isTimeMember m = false := by simpa using ht
      simp only [nonTimeMembers, List.filter_cons, hf, Bool.not_false, if_true]
      simp only [writeDocs, hf, Bool.false_eq_true, if_false]
      cases hr : Fprintf w ("\n    " ++ argName ToSnake m ++ ": " ++
          if Join (filterCommentTags m.CommentLines) "\n      " = "" then "Documentation missing"
          else Join (filterCommentTags m.CommentLines) "\n      ") with
      | mk w1 o =>
        cases o with
        | some e => rfl
        | none => exact ih w1

/-- Replacing the type of the Spec member of a target that has one. -/
theorem getSpecMemberTypeLoop_map (ms : List Member) (spec s : GoType)
    (h : getSpecMemberTypeLoop ms = some spec) :
    getSpecMemberTypeLoop
        (ms.map fun m => if m.Name = "Spec" then { m with Typ := some s } else m) = some s := by
  induction ms with
  | nil => simp [getSpecMemberTypeLoop] at h
  | cons m rest ih =>
    by_cases hn : m.Name = "Spec"
    · simp [getSpecMemberTypeLoop, hn]
    · simp only [getSpecMemberTypeLoop, hn, if_false] at h
      simp [getSpecMemberTypeLoop, hn, ih h]

/-- The Spec of `withSpec t s` is `s` when `t` has a Spec. -/
theorem getSpecMemberType_withSpec (t spec s : GoType) (h : getSpecMemberType t = some spec) :
    getSpecMemberType (withSpec t s) = some s :=
  getSpecMemberTypeLoop_map t.Members spec s h

/-- `WriteStarlarkMemberFunction` reads of a type its name, its comment lines
and its members that are not time-valued. -/
theorem WriteStarlarkMemberFunction_congr (ToSnake : String → String)
    (isTimeMember : Member → Bool) (t t' : GoType) (w : Writer)
    (hn : t'.Name.Name = t.Name.Name) (hc : t'.CommentLines = t.CommentLines)
    (hm : nonTimeMembers isTimeMember t'.Members = nonTimeMembers isTimeMember t.Members) :
    WriteStarlarkMemberFunction ToSnake isTimeMember t' w =
      WriteStarlarkMemberFunction ToSnake isTimeMember t w := by
  have hp : ∀ n w, writeParams ToSnake isTimeMember n t'.Members w =
      writeParams ToSnake isTimeMember n t.Members w := fun n w => by
    rw [writeParams_nonTime ToSnake isTimeMember n t'.Members,
      writeParams_nonTime ToSnake isTimeMember n t.Members, hm]
  have hd : ∀ w, writeDocs ToSnake isTimeMember t'.Members w =
      writeDocs ToSnake isTimeMember t.Members w := fun w => by
    rw [writeDocs_nonTime ToSnake isTimeMember t'.Members,
      writeDocs_nonTime ToSnake isTimeMember t.Members, hm]
  simp only [WriteStarlarkMemberFunction, hn, hc, hp, hd]

/-- `WriteStarlarkFunction` reads of a target its name, its comment lines and
the members of its Spec that are not time-valued. -/
theorem WriteStarlarkFunction_congr (ToSnake : String → String)
    (isTimeMember : Member → Bool) (t t' spec spec' : GoType) (w : Writer)
    (hn : t'.Name.Name = t.Name.Name) (hc : t'.CommentLines = t.CommentLines)
    (hs : getSpecMemberType t = some spec) (hs' : getSpecMemberType t' = some spec')
    (hm : nonTimeMembers isTimeMember spec'.Members = nonTimeMembers isTimeMember spec.Members) :
    WriteStarlarkFunction ToSnake isTimeMember t' w =
      WriteStarlarkFunction ToSnake isTimeMember t w := by
  have hp : ∀ n w, writeParams ToSnake isTimeMember n spec'.Members w =
      writeParams ToSnake isTimeMember n spec.Members w := fun n w => by
    rw [writeParams_nonTime ToSnake isTimeMember n spec'.Members,
      writeParams_nonTime ToSnake isTimeMember n spec.Members, hm]
  have hd : ∀ w, writeDocs ToSnake isTimeMember spec'.Members w =
      writeDocs ToSnake isTimeMember spec.Members w := fun w => by
    rw [writeDocs_nonTime ToSnake isTimeMember spec'.Members,
      writeDocs_nonTime ToSnake isTimeMember spec.Members, hm]
  simp only [WriteStarlarkFunction, hn, hc, hs, hs', hp, hd]

/-- C11: a field for which `isTimeMember` holds is skipped by both function
emitters.  Their results (text and error alike, on every writer) are those for
the same type with the time-valued fields removed, and two types that differ
only in their time-valued fields, whatever the types of these are, give the
same result: such a field never reaches `argSpec`, and the fields that are kept
are not time-valued. -/
theorem C11_time_members_skipped (ToSnake : String → String) (isTimeMember : Member → Bool)
    (t : GoType) (w : Writer) :
    WriteStarlarkMemberFunction ToSnake isTimeMember t w =
        WriteStarlarkMemberFunction ToSnake isTimeMember
          (withMembers t (nonTimeMembers isTimeMember t.Members)) w ∧
      (∀ spec, getSpecMemberType t = some spec →
        WriteStarlarkFunction ToSnake isTimeMember t w =
          WriteStarlarkFunction ToSnake isTimeMember
            (withSpec t (withMembers spec (nonTimeMembers isTimeMember spec.Members))) w) ∧
      (∀ t' : GoType, t'.Name.Name = t.Name.Name → t'.CommentLines = t.CommentLines →
        nonTimeMembers isTimeMember t'.Members = nonTimeMembers isTimeMember t.Members →
        WriteStarlarkMemberFunction ToSnake isTimeMember t' w =
          WriteStarlarkMemberFunction ToSnake isTimeMember t w) ∧
      (∀ t' spec spec' : GoType, t'.Name.Name = t.Name.Name →
        t'.CommentLines = t.CommentLines → getSpecMemberType t = some spec →
        getSpecMemberType t' = some spec' →
        nonTimeMembers isTimeMember spec'.Members = nonTimeMembers isTimeMember spec.Members →
        WriteStarlarkFunction ToSnake isTimeMember t' w =
          WriteStarlarkFunction ToSnake isTimeMember t w) ∧
      (∀ m ∈ nonTimeMembers isTimeMember t.Members, isTimeMember m = false) := by
  refine ⟨?_, fun spec hs => ?_, fun t' hn hc hm => ?_, fun t' spec spec' hn hc hs hs' hm => ?_,
    nonTimeMembers_not_time isTimeMember t.Members⟩
  · exact (WriteStarlarkMemberFunction_congr ToSnake isTimeMember t
      (withMembers t (nonTimeMembers isTimeMember t.Members)) w rfl rfl
      (nonTimeMembers_idem isTimeMember t.Members)).symm
  · exact (WriteStarlarkFunction_congr ToSnake isTimeMember t
      (withSpec t (withMembers spec (nonTimeMembers isTimeMember spec.Members))) spec
      (withMembers spec (nonTimeMembers isTimeMember spec.Members)) w rfl rfl hs
      (getSpecMemberType_withSpec t spec _ hs)
      (nonTimeMembers_idem isTimeMember spec.Members)).symm
  · exact WriteStarlarkMemberFunction_congr ToSnake isTimeMember t t' w hn hc hm
  · exact WriteStarlarkFunction_congr ToSnake isTimeMember t t' spec spec' w hn hc hs hs' hm

theorem C11_time_members_skipped_witness :
    WriteStarlarkFunction lowerCase timeOrWeird holder Writer.buffer =
        WriteStarlarkFunction lowerCase timeOrWeird
          (withSpec holder (withMembers eventType (nonTimeMembers timeOrWeird eventType.Members)))
          Writer.buffer ∧
      WriteStarlarkMemberFunction lowerCase timeOrWeird
          (structNamed "Event" [field "Reason" (builtin "string")]) Writer.buffer =
        WriteStarlarkMemberFunction lowerCase timeOrWeird eventType Writer.buffer ∧
      (WriteStarlarkMemberFunction lowerCase timeOrWeird eventType Writer.buffer).2 = .ok () :=
  ⟨(C11_time_members_skipped lowerCase timeOrWeird holder Writer.buffer).2.1 eventType rfl,
   (C11_time_members_skipped lowerCase timeOrWeird eventType Writer.buffer).2.2.1
      (structNamed "Event" [field "Reason" (builtin "string")]) rfl rfl rfl,
   ((C11_time_members_skipped lowerCase timeOrWeird eventType Writer.buffer).2.2.1
      (structNamed "Event" [field "Reason" (builtin "string")]) rfl rfl rfl) ▸ rfl⟩

/-! ## The stubs of a member type: claims C13 and C14 -/

/-- When the parameter loop runs to its end, every member that is not skipped
has classified. -/
theorem writeParams_ok_classifies (ToSnake : String → String) (isTimeMember : Member → Bool)
    (tName : String) (ms : List Member) (w w' : Writer)
    (h : writeParams ToSnake isTimeMember tName ms w = (w', .ok ())) :
    ∃ rs, List.Forall₂ (fun m r => argSpec ToSnake m = .ok r)
      (nonTimeMembers isTimeMember ms) rs := by
  induction ms generalizing w with
  | nil => exact ⟨[], by simp [nonTimeMembers]⟩
  | cons m rest ih =>
    by_cases ht : isTimeMember m = true
    · simp only [writeParams, ht, if_true] at h
      obtain ⟨rs, hrs⟩ := ih w h
      exact ⟨rs, by simpa [nonTimeMembers, ht] using hrs⟩
    · have hf : isTimeMember m = false := by simpa using ht
      cases hm : argSpec ToSnake m with
      | panic => simp [writeParams, hf, hm] at h
      | error e => simp [writeParams, hf, hm] at h
      | ok r =>
        simp only [writeParams, hf, hm, Bool.false_eq_true, if_false] at h
        cases hr : w.refuse w.data ("\n  " ++ r.1 ++ ": " ++ r.2.1 ++ " = " ++ r.2.2 ++ ",") with
        | some e => simp [Fprintf, hr] at h
        | none =>
          simp only [Fprintf, hr] at h
          obtain ⟨rs, hrs⟩ := ih _ h
          exact ⟨r :: rs, by simpa [nonTimeMembers, hf] using And.intro hm hrs⟩

/-- `WriteStarlarkMemberClass` is one `Fprintf` of `classText`. -/
theorem WriteStarlarkMemberClass_eq (t : GoType) (w : Writer) :
    WriteStarlarkMemberClass t w =
      thenWrite (Fprintf w (classText t)) fun w => (w, .ok ()) := by
  simp only [WriteStarlarkMemberClass, classText, String.append_assoc]

/-- On a writer that never fails `WriteStarlarkMemberClass` writes `classText`
and returns nil. -/
theorem WriteStarlarkMemberClass_neverFails (t : GoType) (w : Writer) (hw : w.neverFails) :
    WriteStarlarkMemberClass t w = (w.emit (classText t), .ok ()) := by
  rw [WriteStarlarkMemberClass_eq, thenWrite_neverFails _ _ _ hw]

/-- When `WriteStarlarkMemberClass` returns nil it has written `classText`. -/
theorem WriteStarlarkMemberClass_ok (t : GoType) (w w' : Writer)
    (h : WriteStarlarkMemberClass t w = (w', .ok ())) : w' = w.emit (classText t) := by
  rw [WriteStarlarkMemberClass_eq] at h
  obtain ⟨_, h⟩ := thenWrite_ok _ _ _ _ h
  simpa using h.symm

/-- When `WriteStarlarkMemberFunction` returns nil, the writer has accepted
exactly `memberFunctionText`. -/
theorem WriteStarlarkMemberFunction_ok (ToSnake : String → String)
    (isTimeMember : Member → Bool) (t : GoType) (rs : List (String × String × String))
    (hrs : List.Forall₂ (fun m r => argSpec ToSnake m = .ok r)
      (nonTimeMembers isTimeMember t.Members) rs)
    (w w' : Writer) (h : WriteStarlarkMemberFunction ToSnake isTimeMember t w = (w', .ok ())) :
    w' = w.emit (memberFunctionText ToSnake isTimeMember t rs) := by
  simp only [WriteStarlarkMemberFunction] at h
  obtain ⟨_, h⟩ := thenWrite_ok _ _ _ _ h
  obtain ⟨w1, h1, h⟩ := thenLoop_ok _ _ _ h
  obtain ⟨_, h⟩ := thenWrite_ok _ _ _ _ h
  obtain ⟨w2, h2, h⟩ := thenLoop_ok _ _ _ h
  obtain ⟨_, h⟩ := thenWrite_ok _ _ _ _ h
  have e1 := writeParams_ok ToSnake isTimeMember _ _ rs hrs _ _ h1
  have e2 := writeDocs_ok ToSnake isTimeMember _ _ _ h2
  simp only [Prod.mk.injEq, and_true] at h
  rw [← h, e2, e1]
  simp only [emit_emit, memberFunctionText, String.append_assoc]

/-- On a writer that never fails, `WriteStarlarkMemberFunction` returns nil for
a type whose included fields classify. -/
theorem WriteStarlarkMemberFunction_neverFails (ToSnake : String → String)
    (isTimeMember : Member → Bool) (t : GoType) (rs : List (String × String × String))
    (hrs : List.Forall₂ (fun m r => argSpec ToSnake m = .ok r)
      (nonTimeMembers isTimeMember t.Members) rs)
    (w : Writer) (hw : w.neverFails) :
    WriteStarlarkMemberFunction ToSnake isTimeMember t w =
      (w.emit (memberFunctionText ToSnake isTimeMember t rs), .ok ()) := by
  simp only [WriteStarlarkMemberFunction]
  rw [thenWrite_neverFails _ _ _ hw,
    writeParams_neverFails ToSnake isTimeMember _ _ rs hrs _ (emit_neverFails _ _ hw),
    thenLoop_done,
    thenWrite_neverFails _ _ _ (emit_neverFails _ _ (emit_neverFails _ _ hw)),
    writeDocs_neverFails ToSnake isTimeMember _ _
      (emit_neverFails _ _ (emit_neverFails _ _ (emit_neverFails _ _ hw))),
    thenLoop_done,
    thenWrite_neverFails _ _ _ (emit_neverFails _ _ (emit_neverFails _ _
      (emit_neverFails _ _ (emit_neverFails _ _ hw))))]
  simp only [emit_emit, memberFunctionText, String.append_assoc]

/-- C13: for a member type whose included fields classify as `rs`,
`WriteStarlarkMemberFunction` returns nil on a writer that never fails, and
whenever it returns nil it has written exactly: `def` with the snake_case name,
an opening parenthesis followed at once by one parameter line per non-time
field of the type itself, in declaration order, the return type `-> Name`, the
type's filtered comment, and an Args section that holds one entry per included
field and nothing else. -/
theorem C13_WriteStarlarkMemberFunction (ToSnake : String → String)
    (isTimeMember : Member → Bool) (t : GoType) (rs : List (String × String × String))
    (w : Writer)
    (hrs : List.Forall₂ (fun m r => argSpec ToSnake m = .ok r)
      (nonTimeMembers isTimeMember t.Members) rs) :
    (w.neverFails → (WriteStarlarkMemberFunction ToSnake isTimeMember t w).2 = .ok ()) ∧
      (∀ w', WriteStarlarkMemberFunction ToSnake isTimeMember t w = (w', .ok ()) →
        w'.data = w.data ++ ("\n\ndef " ++ ToSnake t.Name.Name ++ "(" ++
          concatLines (rs.map fun r => "\n  " ++ r.1 ++ ": " ++ r.2.1 ++ " = " ++ r.2.2 ++ ",") ++
          "\n) -> " ++ t.Name.Name ++ ":\n  \"\"\"\n  " ++
          Join (filterCommentTags t.CommentLines) "\n  " ++ "\n\n  Args:" ++
          concatLines ((nonTimeMembers isTimeMember t.Members).map fun m =>
            "\n    " ++ argName ToSnake m ++ ": " ++
              (if Join (filterCommentTags m.CommentLines) "\n      " = "" then
                "Documentation missing"
               else Join (filterCommentTags m.CommentLines) "\n      ")) ++
          "\n\"\"\"\n  pass")) ∧
      rs.length = (nonTimeMembers isTimeMember t.Members).length := by
  refine ⟨fun hw => ?_, fun w' h => ?_, hrs.length_eq.symm⟩
  · rw [WriteStarlarkMemberFunction_neverFails ToSnake isTimeMember t rs hrs w hw]
  · rw [WriteStarlarkMemberFunction_ok ToSnake isTimeMember t rs hrs w w' h]
    have hpl : (fun r : String × String × String =>
        "\n  " ++ r.1 ++ ": " ++ r.2.1 ++ " = " ++ r.2.2 ++ ",") = paramLine := rfl
    have hde : (fun m : Member => "\n    " ++ argName ToSnake m ++ ": " ++
        (if Join (filterCommentTags m.CommentLines) "\n      " = "" then "Documentation missing"
         else Join (filterCommentTags m.CommentLines) "\n      ")) = docEntry ToSnake := rfl
    rw [hpl, hde]
    simp only [Writer.emit, memberFunctionText, String.append_assoc]

theorem C13_WriteStarlarkMemberFunction_witness :
    (WriteStarlarkMemberFunction lowerCase typeCalledTime fooSpec Writer.buffer).2 = .ok () ∧
      [("name", "str", "\"\""), ("count", "int", "0"), ("children", "List[Bar]", "None")].length =
        (nonTimeMembers typeCalledTime fooSpec.Members).length :=
  ⟨(C13_WriteStarlarkMemberFunction lowerCase typeCalledTime fooSpec
      [("name", "str", "\"\""), ("count", "int", "0"), ("children", "List[Bar]", "None")]
      Writer.buffer fooSpec_classifies).1 (fun _ _ => rfl),
   (C13_WriteStarlarkMemberFunction lowerCase typeCalledTime fooSpec
      [("name", "str", "\"\""), ("count", "int", "0"), ("children", "List[Bar]", "None")]
      Writer.buffer fooSpec_classifies).2.2⟩

/-- C14: on a writer that never fails `WriteStarlarkMemberClass` returns nil and
writes `class Name:`, a docstring made of the type's filtered comment lines, and
`pass`; on any writer its result is the same for two types that have the same
name and comment lines, whatever their fields. -/
theorem C14_WriteStarlarkMemberClass (t : GoType) (w : Writer) :
    (w.neverFails →
        WriteStarlarkMemberClass t w =
          ({ w with data := w.data ++ ("\n\nclass " ++ t.Name.Name ++ ":\n  \"\"\"" ++
            Join (filterCommentTags t.CommentLines) "\n  " ++ "\n\"\"\"\n  pass\n\n") },
           .ok ())) ∧
      (∀ t' : GoType, t'.Name.Name = t.Name.Name → t'.CommentLines = t.CommentLines →
        WriteStarlarkMemberClass t' w = WriteStarlarkMemberClass t w) := by
  refine ⟨fun hw => ?_, fun t' hn hc => ?_⟩
  · rw [WriteStarlarkMemberClass_neverFails t w hw]
    rfl
  · simp only [WriteStarlarkMemberClass, hn, hc]

theorem C14_WriteStarlarkMemberClass_witness :
    (WriteStarlarkMemberClass plainBar Writer.buffer).1.data =
        "\n\nclass Bar:\n  \"\"\"Bar holds a flag.\n\"\"\"\n  pass\n\n" ∧
      WriteStarlarkMemberClass (withMembers plainBar []) Writer.buffer =
        WriteStarlarkMemberClass plainBar Writer.buffer :=
  ⟨congrArg (fun r => r.1.data)
      ((C14_WriteStarlarkMemberClass plainBar Writer.buffer).1 (fun _ _ => rfl)),
   (C14_WriteStarlarkMemberClass plainBar Writer.buffer).2 (withMembers plainBar []) rfl rfl⟩

/-! ## The documentation block: claims C12 and C20 -/

set_option maxRecDepth 8000 in
/-- C12 (as stated, refuted): the field `Port` carries a comment, the single tag
line `+optional`, so the claim makes its entry the field's filtered comment,
which is empty; the code writes the placeholder `Documentation missing`. -/
theorem C12_tag_only_comment_gets_placeholder :
    carriesNoComment portField = false ∧
      Join (filterCommentTags portField.CommentLines) "\n      " = "" ∧
      claimedDocEntry lowerCase portField = "\n    port: " ∧
      (WriteStarlarkFunction lowerCase typeCalledTime probe Writer.buffer).2 = .ok () ∧
      (WriteStarlarkFunction lowerCase typeCalledTime probe Writer.buffer).1.data =
        "\ndef probe(\n  name: str,\n  labels: Dict[str, str] = None,\n  annotations: Dict[str, str] = None,\n  port: int = 0,\n):\n  \"\"\"\n  \n\n  Args:\n    name: The name in the Object metadata.\n    labels: A set of key/value pairs in the Object metadata for grouping objects.\n    annotations: A set of key/value pairs in the Object metadata for attaching data to objects.\n    port: Documentation missing\n\"\"\"\n  pass" := by
  refine ⟨by decide, by decide, by decide, rfl, rfl⟩

/-- C12 (amended): for a target that has a Spec whose included fields classify
as `rs`, `WriteStarlarkFunction` returns nil on a writer that never fails, and
whenever it returns nil the documentation block it has written after the
signature is: the type's filtered comment lines, the Args section with the
three fixed entries, then one entry per non-time Spec field in declaration
order made of `argName` and the field's filtered comment lines; the entry's
text is the placeholder `Documentation missing` exactly when the filtered
comment lines join to the empty text, which is the case of a field without
comment lines, with tag lines only, or with a single empty line. -/
theorem C12_WriteStarlarkFunction_docs (ToSnake : String → String)
    (isTimeMember : Member → Bool) (t spec : GoType) (rs : List (String × String × String))
    (w : Writer) (hs : getSpecMemberType t = some spec)
    (hrs : List.Forall₂ (fun m r => argSpec ToSnake m = .ok r)
      (nonTimeMembers isTimeMember spec.Members) rs) :
    (w.neverFails → (WriteStarlarkFunction ToSnake isTimeMember t w).2 = .ok ()) ∧
      (∀ w', WriteStarlarkFunction ToSnake isTimeMember t w = (w', .ok ()) →
        w'.data = w.data ++ ("\ndef " ++ ToSnake t.Name.Name ++
          "(\n  name: str,\n  labels: Dict[str, str] = None,\n  annotations: Dict[str, str] = None," ++
          concatLines (rs.map paramLine) ++ "\n):" ++
          ("\n  \"\"\"\n  " ++ Join (filterCommentTags t.CommentLines) "\n  " ++
            "\n\n  Args:\n    name: The name in the Object metadata.\n    labels: A set of key/value pairs in the Object metadata for grouping objects.\n    annotations: A set of key/value pairs in the Object metadata for attaching data to objects." ++
            concatLines ((nonTimeMembers isTimeMember spec.Members).map fun m =>
              "\n    " ++ argName ToSnake m ++ ": " ++
                (if Join (filterCommentTags m.CommentLines) "\n      " = "" then
                  "Documentation missing"
                 else Join (filterCommentTags m.CommentLines) "\n      ")) ++
            "\n\"\"\"\n  pass"))) ∧
      (∀ m : Member, filterCommentTags m.CommentLines = [] ∨
          filterCommentTags m.CommentLines = [""] →
        Join (filterCommentTags m.CommentLines) "\n      " = "") := by
  refine ⟨fun hw => ?_, fun w' h => ?_, fun m hm => ?_⟩
  · rw [WriteStarlarkFunction_neverFails ToSnake isTimeMember t spec rs hs hrs w hw]
  · rw [WriteStarlarkFunction_ok ToSnake isTimeMember t spec rs hs hrs w w' h]
    have hlit : "\n):\n  \"\"\"\n  " = "\n):" ++ "\n  \"\"\"\n  " := by decide
    have hde : (fun m : Member => "\n    " ++ argName ToSnake m ++ ": " ++
        (if Join (filterCommentTags m.CommentLines) "\n      " = "" then "Documentation missing"
         else Join (filterCommentTags m.CommentLines) "\n      ")) = docEntry ToSnake := rfl
    rw [hde]
    simp only [Writer.emit, functionText, String.append_assoc, hlit]
  · rcases hm with hm | hm <;> rw [hm] <;> rfl

theorem C12_WriteStarlarkFunction_docs_witness :
    (WriteStarlarkFunction lowerCase typeCalledTime probe Writer.buffer).2 = .ok () ∧
      Join (filterCommentTags portField.CommentLines) "\n      " = "" :=
  ⟨(C12_WriteStarlarkFunction_docs lowerCase typeCalledTime probe
      (structNamed "ProbeSpec" [portField]) [("port", "int", "0")] Writer.buffer rfl
      (.cons rfl .nil)).1 (fun _ _ => rfl),
   (C12_WriteStarlarkFunction_docs lowerCase typeCalledTime probe
      (structNamed "ProbeSpec" [portField]) [("port", "int", "0")] Writer.buffer rfl
      (.cons rfl .nil)).2.2 portField (Or.inl (by decide))⟩

/-- The parameter lines and the Args entries of classified members are built on
one and the same list of names. -/
theorem params_docs_names (ToSnake : String → String) (ms : List Member)
    (rs : List (String × String × String))
    (hrs : List.Forall₂ (fun m r => argSpec ToSnake m = .ok r) ms rs) :
    rs.map paramLine =
        List.zipWith (fun n s => "\n  " ++ n ++ ": " ++ s.1 ++ " = " ++ s.2 ++ ",")
          (ms.map (argName ToSnake)) (rs.map fun r => r.2) ∧
      ms.map (docEntry ToSnake) =
        List.zipWith (fun n d => "\n    " ++ n ++ ": " ++ d)
          (ms.map (argName ToSnake)) (ms.map docText) := by
  induction hrs with
  | nil => exact ⟨rfl, rfl⟩
  | @cons m r ms' rs' hm _ ih =>
    have hn : r.1 = argName ToSnake m := argSpec_name ToSnake m r hm
    refine ⟨?_, ?_⟩
    · simp only [List.map_cons, List.zipWith_cons_cons, ih.1, paramLine, hn]
    · simp only [List.map_cons, List.zipWith_cons_cons, ih.2, docEntry, docText]

/-- The (type, default) pairs of classified members: each member's `argSpec`
result is its `argName` followed by its pair. -/
theorem classified_sigs (ToSnake : String → String) (ms : List Member)
    (rs : List (String × String × String))
    (hrs : List.Forall₂ (fun m r => argSpec ToSnake m = .ok r) ms rs) :
    List.Forall₂ (fun (m : Member) (s : String × String) =>
      argSpec ToSnake m = .ok (argName ToSnake m, s.1, s.2)) ms (rs.map fun r => r.2) := by
  induction hrs with
  | nil => exact .nil
  | @cons m r ms' rs' hm _ ih =>
    have hn : r.1 = argName ToSnake m := argSpec_name ToSnake m r hm
    refine .cons ?_ ih
    rw [hm, ← hn]

/-- C20: whenever `WriteStarlarkFunction` returns nil on a type, the type has a
Spec, and with `ms` the Spec fields that are not time-valued, in declaration
order, the text written is exactly: the fixed parameters, then for each member
of `ms` in order one parameter line made of the member's `argName` and of the
type and default `argSpec` returns for that member, then the comment and the
fixed Args entries, then for each member of `ms` in order one entry made of the
same `argName` and of the member's own doc text.  The sequence of parameter
names after the fixed parameters and the sequence of documented names after the
fixed entries are therefore one and the same list, `ms.map argName`: every
emitted parameter has exactly one entry, at the same position, and no entry is
written for anything else.  The same holds of `WriteStarlarkMemberFunction`
with `ms` the non-time members of the type itself and no fixed parameters. -/
theorem C20_parameters_match_docs (ToSnake : String → String) (isTimeMember : Member → Bool)
    (t : GoType) (w w' : Writer) :
    (WriteStarlarkFunction ToSnake isTimeMember t w = (w', .ok ()) →
        ∃ (spec : GoType) (sigs : List (String × String)),
          getSpecMemberType t = some spec ∧
          List.Forall₂ (fun (m : Member) (s : String × String) =>
              argSpec ToSnake m = .ok (argName ToSnake m, s.1, s.2))
            (nonTimeMembers isTimeMember spec.Members) sigs ∧
          w'.data = w.data ++ ("\ndef " ++ ToSnake t.Name.Name ++
            "(\n  name: str,\n  labels: Dict[str, str] = None,\n  annotations: Dict[str, str] = None," ++
            concatLines (List.zipWith
              (fun n s => "\n  " ++ n ++ ": " ++ s.1 ++ " = " ++ s.2 ++ ",")
              ((nonTimeMembers isTimeMember spec.Members).map (argName ToSnake)) sigs) ++
            ("\n):\n  \"\"\"\n  " ++ Join (filterCommentTags t.CommentLines) "\n  " ++
              "\n\n  Args:\n    name: The name in the Object metadata.\n    labels: A set of key/value pairs in the Object metadata for grouping objects.\n    annotations: A set of key/value pairs in the Object metadata for attaching data to objects.") ++
            concatLines (List.zipWith (fun n d => "\n    " ++ n ++ ": " ++ d)
              ((nonTimeMembers isTimeMember spec.Members).map (argName ToSnake))
              ((nonTimeMembers isTimeMember spec.Members).map docText)) ++
            "\n\"\"\"\n  pass")) ∧
      (WriteStarlarkMemberFunction ToSnake isTimeMember t w = (w', .ok ()) →
        ∃ sigs : List (String × String),
          List.Forall₂ (fun (m : Member) (s : String × String) =>
              argSpec ToSnake m = .ok (argName ToSnake m, s.1, s.2))
            (nonTimeMembers isTimeMember t.Members) sigs ∧
          w'.data = w.data ++ ("\n\ndef " ++ ToSnake t.Name.Name ++ "(" ++
            concatLines (List.zipWith
              (fun n s => "\n  " ++ n ++ ": " ++ s.1 ++ " = " ++ s.2 ++ ",")
              ((nonTimeMembers isTimeMember t.Members).map (argName ToSnake)) sigs) ++
            ("\n) -> " ++ t.Name.Name ++ ":\n  \"\"\"\n  " ++
              Join (filterCommentTags t.CommentLines) "\n  " ++ "\n\n  Args:") ++
            concatLines (List.zipWith (fun n d => "\n    " ++ n ++ ": " ++ d)
              ((nonTimeMembers isTimeMember t.Members).map (argName ToSnake))
              ((nonTimeMembers isTimeMember t.Members).map docText)) ++
            "\n\"\"\"\n  pass")) := by
  refine ⟨fun h => ?_, fun h => ?_⟩
  · cases hs : getSpecMemberType t with
    | none =>
      rw [WriteStarlarkFunction_no_spec ToSnake isTimeMember t w hs] at h
      simp at h
    | some spec =>
      have h0 := h
      simp only [WriteStarlarkFunction, hs] at h0
      obtain ⟨_, h0⟩ := thenWrite_ok _ _ _ _ h0
      obtain ⟨w1, h1, _⟩ := thenLoop_ok _ _ _ h0
      obtain ⟨rs, hrs⟩ := writeParams_ok_classifies ToSnake isTimeMember _ _ _ _ h1
      obtain ⟨hp, hd⟩ := params_docs_names ToSnake _ rs hrs
      refine ⟨spec, rs.map (fun r => r.2), rfl, classified_sigs ToSnake _ rs hrs, ?_⟩
      rw [WriteStarlarkFunction_ok ToSnake isTimeMember t spec rs hs hrs w w' h, ← hp, ← hd]
      simp only [Writer.emit, functionText, String.append_assoc]
  · have h0 := h
    simp only [WriteStarlarkMemberFunction] at h0
    obtain ⟨_, h0⟩ := thenWrite_ok _ _ _ _ h0
    obtain ⟨w1, h1, _⟩ := thenLoop_ok _ _ _ h0
    obtain ⟨rs, hrs⟩ := writeParams_ok_classifies ToSnake isTimeMember _ _ _ _ h1
    obtain ⟨hp, hd⟩ := params_docs_names ToSnake _ rs hrs
    refine ⟨rs.map (fun r => r.2), classified_sigs ToSnake _ rs hrs, ?_⟩
    rw [WriteStarlarkMemberFunction_ok ToSnake isTimeMember t rs hrs w w' h, ← hp, ← hd]
    simp only [Writer.emit, memberFunctionText, String.append_assoc]

theorem C20_parameters_match_docs_witness :
    (∃ (spec : GoType) (sigs : List (String × String)),
        getSpecMemberType foo = some spec ∧
        List.Forall₂ (fun (m : Member) (s : String × String) =>
            argSpec lowerCase m = .ok (argName lowerCase m, s.1, s.2))
          (nonTimeMembers typeCalledTime spec.Members) sigs ∧
        (WriteStarlarkFunction lowerCase typeCalledTime foo Writer.buffer).1.data =
          Writer.buffer.data ++ ("\ndef " ++ lowerCase foo.Name.Name ++
            "(\n  name: str,\n  labels: Dict[str, str] = None,\n  annotations: Dict[str, str] = None," ++
            concatLines (List.zipWith
              (fun n s => "\n  " ++ n ++ ": " ++ s.1 ++ " = " ++ s.2 ++ ",")
              ((nonTimeMembers typeCalledTime spec.Members).map (argName lowerCase)) sigs) ++
            ("\n):\n  \"\"\"\n  " ++ Join (filterCommentTags foo.CommentLines) "\n  " ++
              "\n\n  Args:\n    name: The name in the Object metadata.\n    labels: A set of key/value pairs in the Object metadata for grouping objects.\n    annotations: A set of key/value pairs in the Object metadata for attaching data to objects.") ++
            concatLines (List.zipWith (fun n d => "\n    " ++ n ++ ": " ++ d)
              ((nonTimeMembers typeCalledTime spec.Members).map (argName lowerCase))
              ((nonTimeMembers typeCalledTime spec.Members).map docText)) ++
            "\n\"\"\"\n  pass")) ∧
      (∃ sigs : List (String × String),
        List.Forall₂ (fun (m : Member) (s : String × String) =>
            argSpec lowerCase m = .ok (argName lowerCase m, s.1, s.2))
          (nonTimeMembers typeCalledTime fooSpec.Members) sigs ∧
        (WriteStarlarkMemberFunction lowerCase typeCalledTime fooSpec Writer.buffer).1.data =
          Writer.buffer.data ++ ("\n\ndef " ++ lowerCase fooSpec.Name.Name ++ "(" ++
            concatLines (List.zipWith
              (fun n s => "\n  " ++ n ++ ": " ++ s.1 ++ " = " ++ s.2 ++ ",")
              ((nonTimeMembers typeCalledTime fooSpec.Members).map (argName lowerCase)) sigs) ++
            ("\n) -> " ++ fooSpec.Name.Name ++ ":\n  \"\"\"\n  " ++
              Join (filterCommentTags fooSpec.CommentLines) "\n  " ++ "\n\n  Args:") ++
            concatLines (List.zipWith (fun n d => "\n    " ++ n ++ ": " ++ d)
              ((nonTimeMembers typeCalledTime fooSpec.Members).map (argName lowerCase))
              ((nonTimeMembers typeCalledTime fooSpec.Members).map docText)) ++
            "\n\"\"\"\n  pass")) :=
  ⟨(C20_parameters_match_docs lowerCase typeCalledTime foo Writer.buffer
      (WriteStarlarkFunction lowerCase typeCalledTime foo Writer.buffer).1).1 rfl,
   (C20_parameters_match_docs lowerCase typeCalledTime fooSpec Writer.buffer
      (WriteStarlarkMemberFunction lowerCase typeCalledTime fooSpec Writer.buffer).1).2 rfl⟩

/-! ## The example of the specification: claim C17 -/

/-- A member whose type is the builtin `string` classifies as `(str, "")`. -/
theorem argSpec_builtin_string (ToSnake : String → String) (m : Member) (t : GoType)
    (hm : m.Typ = some t) (hb : isBuiltinNamed "string" t = true) :
    argSpec ToSnake m = .ok (argName ToSnake m, "str", "\"\"") := by
  simp only [isBuiltinNamed, Bool.and_eq_true, beq_iff_eq] at hb
  rw [argSpec_some ToSnake m t hm]
  simp [argSpecOf, returnIf, land, kind_beq, hb.1, hb.2]

/-- A member whose type is the builtin `int32` classifies as `(int, 0)`. -/
theorem argSpec_builtin_int32 (ToSnake : String → String) (m : Member) (t : GoType)
    (hm : m.Typ = some t) (hb : isBuiltinNamed "int32" t = true) :
    argSpec ToSnake m = .ok (argName ToSnake m, "int", "0") := by
  simp only [isBuiltinNamed, Bool.and_eq_true, beq_iff_eq] at hb
  rw [argSpec_some ToSnake m t hm]
  simp [argSpecOf, returnIf, land, kind_beq, hb.1, hb.2]

set_option maxRecDepth 8000 in
/-- C17 (the code departs from the claim): `argName` renames the fields
`Labels` and `Annotations`, whose snake_case would repeat the fixed parameters
`labels` and `annotations`, but it has no such case for the field `Name`, whose
snake_case repeats the fixed parameter `name`.  For `Foo` with the Spec fields
`Name string`, `Count int32`, `Children []Bar`, `WriteStarlarkFunction` returns
nil and the fourth parameter it writes is `name: str = ""`, so the signature
declares `name` twice, which Python refuses as a duplicate argument; the
`name_` of the claim occurs nowhere in the output. -/
theorem C17_fourth_parameter_is_name :
    lowerCase "Foo" = "foo" ∧ lowerCase "Name" = "name" ∧
      (∀ (ToSnake : String → String) (t : GoType),
        argName ToSnake (field "Labels" t) = "spec_labels" ∧
        argName ToSnake (field "Annotations" t) = "spec_anotations" ∧
        argName ToSnake (field "Name" t) = ToSnake "Name") ∧
      (∀ ToSnake : String → String, ToSnake "Name" = "name" →
        argSpec ToSnake (field "Name" (builtin "string")) = .ok ("name", "str", "\"\"")) ∧
      (WriteStarlarkFunction lowerCase typeCalledTime foo3 Writer.buffer).2 = .ok () ∧
      (WriteStarlarkFunction lowerCase typeCalledTime foo3 Writer.buffer).1.data =
        "\ndef foo(\n  name: str,\n  labels: Dict[str, str] = None,\n  annotations: Dict[str, str] = None,\n  name: str = \"\",\n  count: int = 0,\n  children: List[Bar] = None,\n):\n  \"\"\"\n  \n\n  Args:\n    name: The name in the Object metadata.\n    labels: A set of key/value pairs in the Object metadata for grouping objects.\n    annotations: A set of key/value pairs in the Object metadata for attaching data to objects.\n    name: Documentation missing\n    count: Documentation missing\n    children: Documentation missing\n\"\"\"\n  pass" ∧
      ¬ occursIn "name_"
        (WriteStarlarkFunction lowerCase typeCalledTime foo3 Writer.buffer).1.data := by
  refine ⟨rfl, rfl, fun ToSnake t => ⟨?_, ?_, ?_⟩, fun ToSnake h => ?_, rfl, rfl, by decide⟩
  · simp [argName, field]
  · simp [argName, field]
  · simp [argName, field]
  · rw [argSpec_builtin_string ToSnake _ (builtin "string") rfl (by decide)]
    simp [argName, field, h]

set_option maxRecDepth 8000 in
/-- The repeated parameter does not depend on the stand-ins for the external
functions: for every type `Foo` whose Spec member has the fields `Name string`,
`Count int32` and `Children []Bar` (`Bar` a struct), none of them time-valued,
and every `ToSnake` that turns `Foo`, `Name`, `Count`, `Children` into `foo`,
`name`, `count`, `children` as strcase does, `WriteStarlarkFunction` returns
nil on a writer that never fails, and the signature it writes holds `name` a
second time, as `name: str = ""`, after `annotations`. -/
theorem WriteStarlarkFunction_repeats_name (ToSnake : String → String)
    (isTimeMember : Member → Bool)
    (t spec tn tc ts bar : GoType) (mn mc ms : Member) (w : Writer)
    (hFoo : ToSnake "Foo" = "foo") (hName : ToSnake "Name" = "name")
    (hCount : ToSnake "Count" = "count") (hChildren : ToSnake "Children" = "children")
    (ht : t.Name.Name = "Foo") (hs : getSpecMemberType t = some spec)
    (hms : spec.Members = [mn, mc, ms])
    (hn : mn.Name = "Name") (hnt : mn.Typ = some tn) (hnb : isBuiltinNamed "string" tn = true)
    (hc : mc.Name = "Count") (hct : mc.Typ = some tc) (hcb : isBuiltinNamed "int32" tc = true)
    (hch : ms.Name = "Children") (hst : ms.Typ = some ts) (hsk : ts.Kind = Kind.Slice)
    (hse : ts.Elem = some bar) (hbk : bar.Kind = Kind.Struct) (hbn : bar.Name.Name = "Bar")
    (htime : isTimeMember mn = false ∧ isTimeMember mc = false ∧ isTimeMember ms = false)
    (hw : w.neverFails) :
    (WriteStarlarkFunction ToSnake isTimeMember t w).2 = .ok () ∧
      ∃ rest, (WriteStarlarkFunction ToSnake isTimeMember t w).1.data =
        w.data ++ ("\ndef foo(\n  name: str,\n  labels: Dict[str, str] = None,\n  annotations: Dict[str, str] = None,\n  name: str = \"\",\n  count: int = 0,\n  children: List[Bar] = None,\n):" ++ rest) := by
  have h1 : argSpec ToSnake mn = .ok ("name", "str", "\"\"") := by
    rw [argSpec_builtin_string ToSnake mn tn hnt hnb]
    simp [argName, hn, hName]
  have h2 : argSpec ToSnake mc = .ok ("count", "int", "0") := by
    rw [argSpec_builtin_int32 ToSnake mc tc hct hcb]
    simp [argName, hc, hCount]
  have h3 : argSpec ToSnake ms = .ok ("children", "List[Bar]", "None") := by
    rw [argSpec_slice_of_struct ToSnake ms ts bar hst hsk hse hbk (by rw [hbn]; decide)]
    simp [argName, hch, hChildren, hbn]
  have hrs : List.Forall₂ (fun m r => argSpec ToSnake m = .ok r)
      (nonTimeMembers isTimeMember spec.Members)
      [("name", "str", "\"\""), ("count", "int", "0"), ("children", "List[Bar]", "None")] := by
    have : nonTimeMembers isTimeMember spec.Members = [mn, mc, ms] := by
      simp [nonTimeMembers, hms, htime.1, htime.2.1, htime.2.2]
    rw [this]
    exact .cons h1 (.cons h2 (.cons h3 .nil))
  rw [WriteStarlarkFunction_neverFails ToSnake isTimeMember t spec _ hs hrs w hw]
  refine ⟨rfl, "\n  \"\"\"\n  " ++ (Join (filterCommentTags t.CommentLines) "\n  " ++
      ("\n\n  Args:\n    name: The name in the Object metadata.\n    labels: A set of key/value pairs in the Object metadata for grouping objects.\n    annotations: A set of key/value pairs in the Object metadata for attaching data to objects." ++
      (concatLines ((nonTimeMembers isTimeMember spec.Members).map (docEntry ToSnake)) ++
        "\n\"\"\"\n  pass"))), ?_⟩
  have hsig : "\ndef foo(\n  name: str,\n  labels: Dict[str, str] = None,\n  annotations: Dict[str, str] = None,\n  name: str = \"\",\n  count: int = 0,\n  children: List[Bar] = None,\n):" =
      "\ndef " ++ ("foo" ++
        ("(\n  name: str,\n  labels: Dict[str, str] = None,\n  annotations: Dict[str, str] = None," ++
        (concatLines ([("name", "str", "\"\""), ("count", "int", "0"),
          ("children", "List[Bar]", "None")].map paramLine) ++ "\n):"))) := by decide
  have hlit : "\n):\n  \"\"\"\n  " = "\n):" ++ "\n  \"\"\"\n  " := by decide
  rw [hsig]
  simp only [Writer.emit, functionText, String.append_assoc, hlit, ht, hFoo]

theorem WriteStarlarkFunction_repeats_name_witness :
    (WriteStarlarkFunction lowerCase typeCalledTime foo3 Writer.buffer).2 = .ok () ∧
      ∃ rest, (WriteStarlarkFunction lowerCase typeCalledTime foo3 Writer.buffer).1.data =
        Writer.buffer.data ++ ("\ndef foo(\n  name: str,\n  labels: Dict[str, str] = None,\n  annotations: Dict[str, str] = None,\n  name: str = \"\",\n  count: int = 0,\n  children: List[Bar] = None,\n):" ++ rest) :=
  WriteStarlarkFunction_repeats_name lowerCase typeCalledTime foo3 fooSpec3 (builtin "string") (builtin "int32")
    (sliceOf (structNamed "Bar" [])) (structNamed "Bar" [])
    (field "Name" (builtin "string")) (field "Count" (builtin "int32"))
    (field "Children" (sliceOf (structNamed "Bar" []))) Writer.buffer
    rfl rfl rfl rfl rfl rfl rfl rfl rfl (by decide) rfl rfl (by decide) rfl rfl rfl rfl rfl rfl
    ⟨rfl, rfl, rfl⟩ (fun _ _ => rfl)

/-! ## The main program: claims C15 and C16 -/

theorem buffer_emit_data (p : String) : (Writer.buffer.emit p).data = p := by
  simp [Writer.emit, Writer.buffer]

/-- When `WriteStarlarkFunction` returns nil, the target has a Spec and the
included fields of the Spec classify. -/
theorem WriteStarlarkFunction_ok_classifies (ToSnake : String → String)
    (isTimeMember : Member → Bool) (t : GoType) (w w' : Writer)
    (h : WriteStarlarkFunction ToSnake isTimeMember t w = (w', .ok ())) :
    ∃ spec rs, getSpecMemberType t = some spec ∧
      List.Forall₂ (fun m r => argSpec ToSnake m = .ok r)
        (nonTimeMembers isTimeMember spec.Members) rs := by
  cases hs : getSpecMemberType t with
  | none =>
    rw [WriteStarlarkFunction_no_spec ToSnake isTimeMember t w hs] at h
    simp at h
  | some spec =>
    simp only [WriteStarlarkFunction, hs] at h
    obtain ⟨_, h⟩ := thenWrite_ok _ _ _ _ h
    obtain ⟨w1, h1, _⟩ := thenLoop_ok _ _ _ h
    obtain ⟨rs, hrs⟩ := writeParams_ok_classifies ToSnake isTimeMember _ _ _ _ h1
    exact ⟨spec, rs, rfl, hrs⟩

/-- When `WriteStarlarkMemberFunction` returns nil, the included fields of the
type classify. -/
theorem WriteStarlarkMemberFunction_ok_classifies (ToSnake : String → String)
    (isTimeMember : Member → Bool) (t : GoType) (w w' : Writer)
    (h : WriteStarlarkMemberFunction ToSnake isTimeMember t w = (w', .ok ())) :
    ∃ rs, List.Forall₂ (fun m r => argSpec ToSnake m = .ok r)
      (nonTimeMembers isTimeMember t.Members) rs := by
  simp only [WriteStarlarkMemberFunction] at h
  obtain ⟨_, h⟩ := thenWrite_ok _ _ _ _ h
  obtain ⟨w1, h1, _⟩ := thenLoop_ok _ _ _ h
  exact writeParams_ok_classifies ToSnake isTimeMember _ _ _ _ h1

/-- A class stub that was written is the stub of the type. -/
theorem WriteStarlarkMemberClass_stub (t : GoType) (w w' : Writer)
    (h : WriteStarlarkMemberClass t w = (w', .ok ())) :
    w' = w.emit (stubText WriteStarlarkMemberClass t) := by
  rw [WriteStarlarkMemberClass_ok t w w' h, stubText,
    WriteStarlarkMemberClass_neverFails t Writer.buffer (fun _ _ => rfl), buffer_emit_data]

/-- A function stub that was written is the stub of the target. -/
theorem WriteStarlarkFunction_stub (ToSnake : String → String) (isTimeMember : Member → Bool)
    (t : GoType) (w w' : Writer)
    (h : WriteStarlarkFunction ToSnake isTimeMember t w = (w', .ok ())) :
    w' = w.emit (stubText (WriteStarlarkFunction ToSnake isTimeMember) t) := by
  obtain ⟨spec, rs, hs, hrs⟩ := WriteStarlarkFunction_ok_classifies ToSnake isTimeMember t w w' h
  rw [WriteStarlarkFunction_ok ToSnake isTimeMember t spec rs hs hrs w w' h, stubText,
    WriteStarlarkFunction_neverFails ToSnake isTimeMember t spec rs hs hrs Writer.buffer
      (fun _ _ => rfl), buffer_emit_data]

/-- A constructor-function stub that was written is the stub of the type. -/
theorem WriteStarlarkMemberFunction_stub (ToSnake : String → String)
    (isTimeMember : Member → Bool) (t : GoType) (w w' : Writer)
    (h : WriteStarlarkMemberFunction ToSnake isTimeMember t w = (w', .ok ())) :
    w' = w.emit (stubText (WriteStarlarkMemberFunction ToSnake isTimeMember) t) := by
  obtain ⟨rs, hrs⟩ := WriteStarlarkMemberFunction_ok_classifies ToSnake isTimeMember t w w' h
  rw [WriteStarlarkMemberFunction_ok ToSnake isTimeMember t rs hrs w w' h, stubText,
    WriteStarlarkMemberFunction_neverFails ToSnake isTimeMember t rs hrs Writer.buffer
      (fun _ _ => rfl), buffer_emit_data]

/-- A loop of `main` that runs to its end has written the stubs of its types,
in the order of the list. -/
theorem forEachType_ok (f : GoType → Writer → Writer × Outcome Unit)
    (hf : ∀ t w w', f t w = (w', .ok ()) → w' = w.emit (stubText f t))
    (ts : List GoType) (w w' : Writer) (h : forEachType f ts w = (w', .ok ())) :
    w' = w.emit (concatLines (ts.map (stubText f))) := by
  induction ts generalizing w with
  | nil =>
    simp only [forEachType, Prod.mk.injEq, and_true] at h
    simp [concatLines, emit_empty, h]
  | cons t rest ih =>
    simp only [forEachType] at h
    obtain ⟨w1, h1, h2⟩ := thenLoop_ok _ _ _ h
    rw [ih w1 h2, hf t w w1 h1, emit_emit]
    simp [concatLines]

/-- A loop of `main` that runs to its end has called `f` with success on each
of its types. -/
theorem forEachType_ok_each (f : GoType → Writer → Writer × Outcome Unit)
    (ts : List GoType) (w w' : Writer) (h : forEachType f ts w = (w', .ok ())) :
    ∀ t ∈ ts, ∃ w1 w2, f t w1 = (w2, .ok ()) := by
  induction ts generalizing w with
  | nil => intro t ht; cases ht
  | cons t rest ih =>
    simp only [forEachType] at h
    obtain ⟨w1, h1, h2⟩ := thenLoop_ok _ _ _ h
    intro x hx
    rcases List.mem_cons.mp hx with rfl | hx
    · exact ⟨w, w1, h1⟩
    · exact ih w1 h2 x hx

/-- When everything has been produced into the buffer, `FindStructMembers` has
returned a list of member types, the buffer holds `outputText`, and every call
of an emitter has returned nil. -/
theorem mainBuffer_ok (env : Env) (topTypes : List GoType) (buf : Writer)
    (h : mainBuffer env topTypes = (buf, .ok ())) :
    ∃ memberTypes, env.FindStructMembers topTypes = .ok memberTypes ∧
      buf = Writer.buffer.emit (outputText env topTypes memberTypes) ∧
      (∀ t ∈ topTypes, ∃ w1 w2,
        WriteStarlarkFunction env.ToSnake env.isTimeMember t w1 = (w2, .ok ())) ∧
      (∀ t ∈ memberTypes, ∃ w1 w2,
        WriteStarlarkMemberFunction env.ToSnake env.isTimeMember t w1 = (w2, .ok ())) := by
  have hpre : WritePreamble Writer.buffer = (Writer.buffer.emit preambleText, .ok ()) := rfl
  simp only [mainBuffer, hpre, thenLoop_done] at h
  cases hf : env.FindStructMembers topTypes with
  | panic => simp [hf] at h
  | error e => simp [hf] at h
  | ok memberTypes =>
    simp only [hf] at h
    obtain ⟨w1, h1, h⟩ := thenLoop_ok _ _ _ h
    obtain ⟨w2, h2, h⟩ := thenLoop_ok _ _ _ h
    obtain ⟨w3, h3, h⟩ := thenLoop_ok _ _ _ h
    have e1 := forEachType_ok _ WriteStarlarkMemberClass_stub _ _ _ h1
    have e2 := forEachType_ok _
      (WriteStarlarkFunction_stub env.ToSnake env.isTimeMember) _ _ _ h2
    have e3 := forEachType_ok _
      (WriteStarlarkMemberFunction_stub env.ToSnake env.isTimeMember) _ _ _ h3
    refine ⟨memberTypes, rfl, ?_, forEachType_ok_each _ _ _ _ h2,
      forEachType_ok_each _ _ _ _ h3⟩
    simp only [Prod.mk.injEq, and_true] at h
    rw [← h, e3, e2, e1]
    simp only [emit_emit, outputText, String.append_assoc]

/-- The run of `main` on two arguments, once the targets are loaded and
everything has been produced into the buffer. -/
theorem main_after_buffer (env : Env) (a0 a1 a2 : String) (topTypes : List GoType)
    (buf : Writer)
    (hl : LoadStarlarkGenTypes env.packageTypes env.ExtractSingleBoolCommentTag a1 = .ok topTypes)
    (hb : mainBuffer env topTypes = (buf, .ok ())) :
    main env [a0, a1, a2] =
      match OpenOutputFile env a2 with
      | .panic => { outcome := .panic, stderr := "", opened := true, out := none }
      | .error err => exitWith err true none
      | .ok out =>
        match Fprintf out buf.data with
        | (out, some err) => exitWith err true (some out)
        | (out, none) => { outcome := .ok (), stderr := "", opened := true, out := some out } := by
  simp only [main, hl, hb]

/-- The run of `main` on two arguments when the buffer could not be filled. -/
theorem main_buffer_failed (env : Env) (a0 a1 a2 : String) (topTypes : List GoType)
    (hl : LoadStarlarkGenTypes env.packageTypes env.ExtractSingleBoolCommentTag a1 = .ok topTypes)
    (hb : (mainBuffer env topTypes).2 ≠ .ok ()) :
    (main env [a0, a1, a2]).opened = false ∧ (main env [a0, a1, a2]).out = none ∧
      (main env [a0, a1, a2]).outcome ≠ .ok () := by
  simp only [main, hl]
  cases hm : mainBuffer env topTypes with
  | mk buf o =>
    cases o with
    | ok u => simp [hm] at hb
    | error e => simp [exitWith]
    | panic => simp

/-- The destination is opened only after the targets are loaded and everything
has been produced into the buffer. -/
theorem main_opened (env : Env) (args : List String) (h : (main env args).opened = true) :
    ∃ a0 a1 a2 topTypes buf, args = [a0, a1, a2] ∧
      LoadStarlarkGenTypes env.packageTypes env.ExtractSingleBoolCommentTag a1 = .ok topTypes ∧
      mainBuffer env topTypes = (buf, .ok ()) := by
  rcases args with _ | ⟨a0, _ | ⟨a1, _ | ⟨a2, _ | ⟨a3, rest⟩⟩⟩⟩
  · simp [main] at h
  · simp [main] at h
  · simp [main] at h
  · cases hl : LoadStarlarkGenTypes env.packageTypes env.ExtractSingleBoolCommentTag a1 with
    | panic => simp [main, hl] at h
    | error e => simp [main, hl, exitWith] at h
    | ok topTypes =>
      cases hm : mainBuffer env topTypes with
      | mk buf o =>
        cases o with
        | ok u => exact ⟨a0, a1, a2, topTypes, buf, rfl, hl, hm⟩
        | error e => simp [main, hl, hm, exitWith] at h
        | panic => simp [main, hl, hm] at h
  · simp [main] at h

/-- C15: on a successful run of `main`, the arguments are the program name, the
package and the destination; the targets were loaded, the member types
collected and the destination opened; and the destination has accepted, after
what it held, the preamble, then the class stub of every member type in
collection order, then the function stub of every target in target order, then
the constructor-function stub of every member type in collection order.  Every
class stub thus precedes every function stub. -/
theorem C15_main_output_order (env : Env) (args : List String)
    (h : (main env args).outcome = .ok ()) :
    ∃ a0 a1 a2 topTypes memberTypes dest, args = [a0, a1, a2] ∧
      LoadStarlarkGenTypes env.packageTypes env.ExtractSingleBoolCommentTag a1 = .ok topTypes ∧
      env.FindStructMembers topTypes = .ok memberTypes ∧
      OpenOutputFile env a2 = .ok dest ∧
      (main env args).out = some { dest with data := dest.data ++
        (preambleText ++
          concatLines (memberTypes.map (stubText WriteStarlarkMemberClass)) ++
          concatLines (topTypes.map
            (stubText (WriteStarlarkFunction env.ToSnake env.isTimeMember))) ++
          concatLines (memberTypes.map
            (stubText (WriteStarlarkMemberFunction env.ToSnake env.isTimeMember)))) } := by
  rcases args with _ | ⟨a0, _ | ⟨a1, _ | ⟨a2, _ | ⟨a3, rest⟩⟩⟩⟩
  · simp [main] at h
  · simp [main] at h
  · simp [main] at h
  · cases hl : LoadStarlarkGenTypes env.packageTypes env.ExtractSingleBoolCommentTag a1 with
    | panic => simp [main, hl] at h
    | error e => simp [main, hl, exitWith] at h
    | ok topTypes =>
      cases hm : mainBuffer env topTypes with
      | mk buf o =>
        cases o with
        | error e => simp [main, hl, hm, exitWith] at h
        | panic => simp [main, hl, hm] at h
        | ok u =>
          obtain ⟨memberTypes, hf, hbuf, _, _⟩ := mainBuffer_ok env topTypes buf hm
          rw [main_after_buffer env a0 a1 a2 topTypes buf hl hm] at h ⊢
          cases ho : OpenOutputFile env a2 with
          | panic => simp [ho] at h
          | error e => simp [ho, exitWith] at h
          | ok dest =>
            refine ⟨a0, a1, a2, topTypes, memberTypes, dest, rfl, hl, hf, ho, ?_⟩
            simp only [ho] at h ⊢
            cases hr : dest.refuse dest.data buf.data with
            | some e => simp [Fprintf, hr, exitWith] at h
            | none =>
              have hd : buf.data = outputText env topTypes memberTypes := by
                rw [hbuf, buffer_emit_data]
              have hw : Fprintf dest buf.data =
                  ({ dest with data := dest.data ++ buf.data }, none) := by
                simp only [Fprintf, hr]
              rw [hw, hd]
              rfl
  · simp [main] at h

theorem C15_main_output_order_witness :
    ∃ a0 a1 a2 topTypes memberTypes dest, ["codegen", "./api", "-"] = [a0, a1, a2] ∧
      LoadStarlarkGenTypes exampleEnv.packageTypes exampleEnv.ExtractSingleBoolCommentTag a1 =
        .ok topTypes ∧
      exampleEnv.FindStructMembers topTypes = .ok memberTypes ∧
      OpenOutputFile exampleEnv a2 = .ok dest ∧
      (main exampleEnv ["codegen", "./api", "-"]).out = some { dest with data := dest.data ++
        (preambleText ++
          concatLines (memberTypes.map (stubText WriteStarlarkMemberClass)) ++
          concatLines (topTypes.map
            (stubText (WriteStarlarkFunction exampleEnv.ToSnake exampleEnv.isTimeMember))) ++
          concatLines (memberTypes.map
            (stubText
              (WriteStarlarkMemberFunction exampleEnv.ToSnake exampleEnv.isTimeMember)))) } :=
  C15_main_output_order exampleEnv ["codegen", "./api", "-"] rfl

/-- The buffer cannot be filled when a target has no Spec, or a non-time field
of a target's Spec or of a member type fails classification. -/
theorem mainBuffer_fails (env : Env) (topTypes : List GoType)
    (h : (∃ t ∈ topTypes, getSpecMemberType t = none) ∨
      (∃ t ∈ topTypes, ∃ spec, getSpecMemberType t = some spec ∧
        ∃ m ∈ spec.Members, env.isTimeMember m = false ∧
          ∃ e, argSpec env.ToSnake m = .error e) ∨
      (∃ memberTypes, env.FindStructMembers topTypes = .ok memberTypes ∧
        ∃ t ∈ memberTypes, ∃ m ∈ t.Members, env.isTimeMember m = false ∧
          ∃ e, argSpec env.ToSnake m = .error e)) :
    (mainBuffer env topTypes).2 ≠ .ok () := by
  intro hok
  have hb : mainBuffer env topTypes = ((mainBuffer env topTypes).1, .ok ()) := by
    rw [← hok]
  obtain ⟨memberTypes, hf, _, htop, hmem⟩ := mainBuffer_ok env topTypes _ hb
  rcases h with ⟨t, ht, hs⟩ | ⟨t, ht, spec, hs, m, hm, hmt, e, he⟩ |
      ⟨mts, hf', t, ht, m, hm, hmt, e, he⟩
  · obtain ⟨w1, w2, hw⟩ := htop t ht
    obtain ⟨spec, _, hs', _⟩ :=
      WriteStarlarkFunction_ok_classifies env.ToSnake env.isTimeMember t w1 w2 hw
    rw [hs] at hs'
    cases hs'
  · obtain ⟨w1, w2, hw⟩ := htop t ht
    obtain ⟨spec', rs, hs', hrs⟩ :=
      WriteStarlarkFunction_ok_classifies env.ToSnake env.isTimeMember t w1 w2 hw
    rw [hs] at hs'
    cases hs'
    obtain ⟨r, hr⟩ := forall₂_left_exists hrs m (by simp [nonTimeMembers, hm, hmt])
    rw [he] at hr
    cases hr
  · rw [hf] at hf'
    cases hf'
    obtain ⟨w1, w2, hw⟩ := hmem t ht
    obtain ⟨rs, hrs⟩ :=
      WriteStarlarkMemberFunction_ok_classifies env.ToSnake env.isTimeMember t w1 w2 hw
    obtain ⟨r, hr⟩ := forall₂_left_exists hrs m (by simp [nonTimeMembers, hm, hmt])
    rw [he] at hr
    cases hr

/-- C16: `main` calls `OpenOutputFile` only after the targets are loaded and the
preamble, every class stub and every function stub have been produced into the
in-memory buffer without error.  So when, for the loaded targets, a target has
no Spec member, or a non-time field of a target's Spec or of a collected member
type fails classification, the run does not succeed, the destination is never
opened and nothing is written to it. -/
theorem C16_main_no_output_on_failure (env : Env) (args : List String) :
    ((main env args).opened = true →
        ∃ a0 a1 a2 topTypes buf, args = [a0, a1, a2] ∧
          LoadStarlarkGenTypes env.packageTypes env.ExtractSingleBoolCommentTag a1 =
            .ok topTypes ∧
          mainBuffer env topTypes = (buf, .ok ())) ∧
      ((main env args).opened = false → (main env args).out = none) ∧
      (∀ a0 a1 a2 topTypes, args = [a0, a1, a2] →
        LoadStarlarkGenTypes env.packageTypes env.ExtractSingleBoolCommentTag a1 =
          .ok topTypes →
        ((∃ t ∈ topTypes, getSpecMemberType t = none) ∨
          (∃ t ∈ topTypes, ∃ spec, getSpecMemberType t = some spec ∧
            ∃ m ∈ spec.Members, env.isTimeMember m = false ∧
              ∃ e, argSpec env.ToSnake m = .error e) ∨
          (∃ memberTypes, env.FindStructMembers topTypes = .ok memberTypes ∧
            ∃ t ∈ memberTypes, ∃ m ∈ t.Members, env.isTimeMember m = false ∧
              ∃ e, argSpec env.ToSnake m = .error e)) →
        (main env args).opened = false ∧ (main env args).out = none ∧
          (main env args).outcome ≠ .ok ()) := by
  refine ⟨main_opened env args, fun h => ?_, fun a0 a1 a2 topTypes ha hl hfail => ?_⟩
  · rcases args with _ | ⟨a0, _ | ⟨a1, _ | ⟨a2, _ | ⟨a3, rest⟩⟩⟩⟩
    · rfl
    · rfl
    · rfl
    · cases hl : LoadStarlarkGenTypes env.packageTypes env.ExtractSingleBoolCommentTag a1 with
      | panic => simp [main, hl]
      | error e => simp [main, hl, exitWith]
      | ok topTypes =>
        cases hm : mainBuffer env topTypes with
        | mk buf o =>
          cases o with
          | error e => simp [main, hl, hm, exitWith]
          | panic => simp [main, hl, hm]
          | ok u =>
            rw [main_after_buffer env a0 a1 a2 topTypes buf hl hm] at h
            cases ho : OpenOutputFile env a2 with
            | panic => simp [ho] at h
            | error e => simp [ho, exitWith] at h
            | ok dest =>
              cases hr : dest.refuse dest.data buf.data <;>
                simp [ho, Fprintf, hr, exitWith] at h
    · rfl
  · subst ha
    exact main_buffer_failed env a0 a1 a2 topTypes hl (mainBuffer_fails env topTypes hfail)

theorem C16_main_no_output_on_failure_witness :
    (main badEnv ["codegen", "./api", "out"]).opened = false ∧
      (main badEnv ["codegen", "./api", "out"]).out = none ∧
      (main badEnv ["codegen", "./api", "out"]).outcome ≠ .ok () :=
  (C16_main_no_output_on_failure badEnv ["codegen", "./api", "out"]).2.2
    "codegen" "./api" "out" [asTarget bad] rfl rfl
    (Or.inr (Or.inl ⟨asTarget bad, List.mem_cons_self _ _, badSpec, rfl,
      field "Size" (builtin "int64"), by simp [badSpec, structNamed, GoType.Members], rfl,
      _, rfl⟩))

/-! ## Loading the targets: claim C18 -/

instance nameLe_total :
    IsTotal GoType (fun a b => a.Name.Name.data ≤ b.Name.Name.data) :=
  ⟨fun a b => le_total a.Name.Name.data b.Name.Name.data⟩

instance nameLe_trans :
    IsTrans GoType (fun a b => a.Name.Name.data ≤ b.Name.Name.data) :=
  ⟨fun _ _ _ h1 h2 => le_trans h1 h2⟩

instance nameLt_antisymm :
    IsAntisymm GoType (fun a b => a.Name.Name.data < b.Name.Name.data) :=
  ⟨fun _ _ h1 h2 => absurd h1 (lt_asymm h2)⟩

/-- The loop of `LoadStarlarkGenTypes`, when it returns a list, has appended the
selected types in the order of the enumeration. -/
theorem selectLoop_ok (extract : String → String → Bool → List String → Outcome Bool)
    (types acc results : List GoType) (h : selectLoop extract types acc = .ok results) :
    results = acc ++ types.filter (selected extract) := by
  induction types generalizing acc with
  | nil =>
    simp only [selectLoop, Outcome.ok.injEq] at h
    simp [h]
  | cons t rest ih =>
    simp only [selectLoop] at h
    cases he : extract "+" "tilt:starlark-gen" false t.CommentLines with
    | panic => simp [he] at h
    | error e => simp [he] at h
    | ok b =>
      simp only [he] at h
      rw [ih _ h]
      cases b <;> simp [List.filter_cons, selected, he]

/-- The loop returns a list when every tag can be parsed. -/
theorem selectLoop_total (extract : String → String → Bool → List String → Outcome Bool)
    (types acc : List GoType)
    (h : ∀ t ∈ types, ∃ b, extract "+" "tilt:starlark-gen" false t.CommentLines = .ok b) :
    ∃ results, selectLoop extract types acc = .ok results := by
  induction types generalizing acc with
  | nil => exact ⟨acc, rfl⟩
  | cons t rest ih =>
    obtain ⟨b, hb⟩ := h t (List.mem_cons_self _ _)
    simp only [selectLoop, hb]
    exact ih _ (fun x hx => h x (List.mem_cons_of_mem _ hx))

/-- What `LoadStarlarkGenTypes` returns, when it returns a list. -/
theorem LoadStarlarkGenTypes_ok (packageTypes : String → Outcome (List GoType))
    (extract : String → String → Bool → List String → Outcome Bool) (pkg : String)
    (types results : List GoType) (hp : packageTypes pkg = .ok types)
    (h : LoadStarlarkGenTypes packageTypes extract pkg = .ok results) :
    results = sortByName (types.filter (selected extract)) := by
  simp only [LoadStarlarkGenTypes, hp] at h
  cases hs : selectLoop extract types [] with
  | panic => simp [hs] at h
  | error e => simp [hs] at h
  | ok sel =>
    simp only [hs, Outcome.ok.injEq] at h
    rw [← h, selectLoop_ok extract types [] sel hs, List.nil_append]

/-- Sorting types whose names differ pairwise gives a list in strictly
ascending order of name. -/
theorem sortByName_sorted (l : List GoType) (hn : (l.map fun t => t.Name.Name).Nodup) :
    (sortByName l).Sorted (fun a b => a.Name.Name.data < b.Name.Name.data) := by
  have hs : (sortByName l).Sorted (fun a b => a.Name.Name.data ≤ b.Name.Name.data) :=
    List.sorted_insertionSort _ l
  have hp : (sortByName l).Perm l := List.perm_insertionSort _ l
  have hn' : ((sortByName l).map fun t => t.Name.Name).Nodup :=
    (hp.map _).nodup_iff.mpr hn
  have hne : (sortByName l).Pairwise (fun a b => a.Name.Name ≠ b.Name.Name) :=
    List.pairwise_map.mp hn'
  exact (List.Pairwise.and hs hne).imp
    (fun h => lt_of_le_of_ne h.1 (fun e => h.2 (String.ext e)))

/-- C18: for a package whose types have pairwise different names,
`LoadStarlarkGenTypes` returns a list whenever every tag can be parsed, and the
list it returns holds exactly the types of the package whose
`tilt:starlark-gen` tag evaluates to true with default `false`, each once, in
strictly ascending order of type name; another enumeration of the same types
gives the same list. -/
theorem C18_LoadStarlarkGenTypes (packageTypes : String → Outcome (List GoType))
    (extract : String → String → Bool → List String → Outcome Bool) (pkg : String)
    (types : List GoType) (hp : packageTypes pkg = .ok types)
    (hn : (types.map fun t => t.Name.Name).Nodup) :
    ((∀ t ∈ types, ∃ b, extract "+" "tilt:starlark-gen" false t.CommentLines = .ok b) →
        ∃ results, LoadStarlarkGenTypes packageTypes extract pkg = .ok results) ∧
      (∀ results, LoadStarlarkGenTypes packageTypes extract pkg = .ok results →
        (∀ t, t ∈ results ↔
          t ∈ types ∧ extract "+" "tilt:starlark-gen" false t.CommentLines = .ok true) ∧
        results.Perm (types.filter (selected extract)) ∧
        (results.map fun t => t.Name.Name).Nodup ∧
        results.Sorted (fun a b => a.Name.Name.data < b.Name.Name.data) ∧
        (∀ (packageTypes' : String → Outcome (List GoType)) (types' results' : List GoType),
          packageTypes' pkg = .ok types' → types'.Perm types →
          LoadStarlarkGenTypes packageTypes' extract pkg = .ok results' →
          results' = results)) := by
  have hfn : ∀ l : List GoType, l.Perm types →
      ((l.filter (selected extract)).map fun t => t.Name.Name).Nodup := fun l hl =>
    ((hl.map _).nodup_iff.mpr hn).sublist ((List.filter_sublist l).map _)
  refine ⟨fun htot => ?_, fun results hr => ?_⟩
  · obtain ⟨sel, hs⟩ := selectLoop_total extract types [] htot
    exact ⟨sortByName sel, by simp only [LoadStarlarkGenTypes, hp, hs]⟩
  · have he := LoadStarlarkGenTypes_ok packageTypes extract pkg types results hp hr
    have hperm : results.Perm (types.filter (selected extract)) := by
      rw [he]
      exact List.perm_insertionSort _ _
    have hsorted : results.Sorted (fun a b => a.Name.Name.data < b.Name.Name.data) := by
      rw [he]
      exact sortByName_sorted _ (hfn types (List.Perm.refl _))
    refine ⟨fun t => ?_, hperm, (hperm.map _).nodup_iff.mpr (hfn types (List.Perm.refl _)),
      hsorted, fun packageTypes' types' results' hp' hperm' hr' => ?_⟩
    · rw [hperm.mem_iff, List.mem_filter]
      constructor
      · rintro ⟨ht, hsel⟩
        refine ⟨ht, ?_⟩
        unfold selected at hsel
        split at hsel
        · assumption
        · cases hsel
      · rintro ⟨ht, hsel⟩
        exact ⟨ht, by simp [selected, hsel]⟩
    · have he' := LoadStarlarkGenTypes_ok packageTypes' extract pkg types' results' hp' hr'
      have hperm2 : results'.Perm results := by
        rw [he']
        exact ((List.perm_insertionSort _ _).trans (hperm'.filter _)).trans hperm.symm
      have hsorted' : results'.Sorted (fun a b => a.Name.Name.data < b.Name.Name.data) := by
        rw [he']
        exact sortByName_sorted _ (hfn types' hperm')
      exact List.eq_of_perm_of_sorted hperm2 hsorted' hsorted

theorem C18_LoadStarlarkGenTypes_witness :
    LoadStarlarkGenTypes exampleEnv.packageTypes tagLinePresent "./api" =
        .ok [asTarget (structNamed "Abc" [field "Spec" (structNamed "AbcSpec" [])]),
          asTarget foo3] ∧
      ∃ results, LoadStarlarkGenTypes exampleEnv.packageTypes tagLinePresent "./api" =
        .ok results :=
  ⟨rfl, (C18_LoadStarlarkGenTypes exampleEnv.packageTypes tagLinePresent "./api"
      [asTarget foo3, structNamed "Bar" [],
        asTarget (structNamed "Abc" [field "Spec" (structNamed "AbcSpec" [])])] rfl
      (by decide)).1 (fun t _ => ⟨_, rfl⟩)⟩

/-! ## The member collector: claim C19 -/

theorem collectMembers_nil (acc : List GoType) : collectMembers acc [] = acc := by
  rw [collectMembers]

theorem collectMembers_none (acc : List GoType) (m : Member) (rest : List Member)
    (h : referencedStruct m = none) :
    collectMembers acc (m :: rest) = collectMembers acc rest := by
  rw [collectMembers]
  split
  · rfl
  · rename_i s hs
    rw [h] at hs
    cases hs

theorem collectMembers_seen (acc : List GoType) (m : Member) (rest : List Member) (s : GoType)
    (h : referencedStruct m = some s) (hseen : (acc.any fun u => u.Name == s.Name) = true) :
    collectMembers acc (m :: rest) = collectMembers acc rest := by
  rw [collectMembers]
  split
  · rfl
  · rename_i s' hs
    rw [h] at hs
    cases hs
    simp [hseen]

theorem collectMembers_new (acc : List GoType) (m : Member) (rest : List Member) (s : GoType)
    (h : referencedStruct m = some s) (hnew : ¬ (acc.any fun u => u.Name == s.Name) = true) :
    collectMembers acc (m :: rest) =
      collectMembers (collectMembers (acc ++ [s]) s.Members) rest := by
  rw [collectMembers]
  split
  · rename_i hs
    rw [h] at hs
    cases hs
  · rename_i s' hs
    rw [h] at hs
    cases hs
    simp [hnew]

/-- A type is among those seen exactly when its name is among their names. -/
theorem any_name_iff (acc : List GoType) (s : GoType) :
    (acc.any fun u => u.Name == s.Name) = true ↔ s.Name ∈ acc.map fun u => u.Name := by
  simp only [List.any_eq_true, beq_iff_eq, List.mem_map]

/-- The walk extends the list it starts from; every struct a walked field
refers to is then in the list (by name), so is every struct a field of a type
added by the walk refers to; and the names stay pairwise different. -/
theorem collectMembers_spec (acc : List GoType) (ms : List Member) :
    (∃ ext, collectMembers acc ms = acc ++ ext ∧
        ∀ u ∈ ext, ∀ m ∈ u.Members, ∀ s, referencedStruct m = some s →
          s.Name ∈ (collectMembers acc ms).map fun u => u.Name) ∧
      (∀ m ∈ ms, ∀ s, referencedStruct m = some s →
        s.Name ∈ (collectMembers acc ms).map fun u => u.Name) ∧
      ((acc.map fun u => u.Name).Nodup →
        ((collectMembers acc ms).map fun u => u.Name).Nodup) := by
  induction acc, ms using collectMembers.induct with
  | case1 acc =>
    rw [collectMembers_nil]
    exact ⟨⟨[], by simp, by simp⟩, by simp, id⟩
  | case2 acc m rest h ih =>
    rw [collectMembers_none acc m rest h]
    obtain ⟨hext, hcov, hnd⟩ := ih
    refine ⟨hext, fun x hx s hs => ?_, hnd⟩
    rcases List.mem_cons.mp hx with rfl | hx
    · rw [h] at hs
      cases hs
    · exact hcov x hx s hs
  | case3 acc m rest s h hseen ih =>
    rw [collectMembers_seen acc m rest s h hseen]
    obtain ⟨⟨ext, hext, hcl⟩, hcov, hnd⟩ := ih
    refine ⟨⟨ext, hext, hcl⟩, fun x hx s' hs => ?_, hnd⟩
    rcases List.mem_cons.mp hx with rfl | hx
    · rw [h] at hs
      cases hs
      rw [hext, List.map_append]
      exact List.mem_append_left _ ((any_name_iff acc s).mp hseen)
    · exact hcov x hx s' hs
  | case4 acc m rest s h hnew ih1 ih2 =>
    rw [collectMembers_new acc m rest s h hnew]
    obtain ⟨⟨ext1, hext1, hcl1⟩, hcov1, hnd1⟩ := ih1
    obtain ⟨⟨ext2, hext2, hcl2⟩, hcov2, hnd2⟩ := ih2
    have hmono : ∀ n, n ∈ (collectMembers (acc ++ [s]) s.Members).map (fun u => u.Name) →
        n ∈ (collectMembers (collectMembers (acc ++ [s]) s.Members) rest).map
          (fun u => u.Name) := by
      intro n hn
      rw [hext2, List.map_append]
      exact List.mem_append_left _ hn
    refine ⟨⟨[s] ++ ext1 ++ ext2, ?_, ?_⟩, fun x hx s' hs => ?_, fun hacc => ?_⟩
    · rw [hext2, hext1]
      simp [List.append_assoc]
    · intro u hu x hx s' hs
      rcases List.mem_append.mp hu with hu | hu
      · rcases List.mem_append.mp hu with hu | hu
        · rw [List.mem_singleton] at hu
          subst hu
          exact hmono _ (hcov1 x hx s' hs)
        · exact hmono _ (hcl1 u hu x hx s' hs)
      · exact hcl2 u hu x hx s' hs
    · rcases List.mem_cons.mp hx with rfl | hx
      · rw [h] at hs
        cases hs
        apply hmono
        rw [hext1, List.map_append, List.map_append]
        exact List.mem_append_left _ (List.mem_append_right _ (by simp))
      · exact hcov2 x hx s' hs
    · apply hnd2
      apply hnd1
      rw [List.map_append, List.nodup_append]
      refine ⟨hacc, by simp, ?_⟩
      intro a ha hb
      simp only [List.map_cons, List.map_nil, List.mem_singleton] at hb
      subst hb
      exact hnew ((any_name_iff acc s).mpr ha)

/-- What `if c { return r }; rest` returned came from `r`, the condition being
true, or from `rest`, the condition being false. -/
theorem returnIf_ok_cases {α : Type} (c : Option Bool) (r x : α) (rest : Outcome α)
    (h : returnIf c r rest = .ok x) :
    (c = some true ∧ x = r) ∨ (c = some false ∧ rest = .ok x) := by
  match c, h with
  | some true, h =>
    simp only [returnIf, Outcome.ok.injEq] at h
    exact Or.inl ⟨rfl, h.symm⟩
  | some false, h => exact Or.inr ⟨rfl, h⟩

/-- A guarded condition that is true: the guard holds, the component is there
and the condition holds of it. -/
theorem land_map_true {α : Type} (a : Bool) (o : Option α) (f : α → Bool)
    (h : land a (o.map f) = some true) : a = true ∧ ∃ x, o = some x ∧ f x = true := by
  cases a <;> cases o <;> simp_all [land]

/-- The type text `argSpec` returns names no struct, or names the struct the
field refers to. -/
theorem argSpec_type_text (ToSnake : String → String) (m : Member)
    (r : String × String × String) (h : argSpec ToSnake m = .ok r) :
    r.2.1 ∈ ["str", "Optional[str]", "bool", "int", "Dict[str, str]", "List[str]"] ∨
      ∃ s, referencedStruct m = some s ∧
        (r.2.1 = s.Name.Name ∨ r.2.1 = "Optional[" ++ s.Name.Name ++ "]" ∨
          r.2.1 = "List[" ++ s.Name.Name ++ "]") := by
  cases hm : m.Typ with
  | none => simp [argSpec, hm] at h
  | some t =>
    rw [argSpec_some ToSnake m t hm] at h
    unfold argSpecOf at h
    rcases returnIf_ok_cases _ _ _ _ h with ⟨_, rfl⟩ | ⟨_, h⟩
    · exact Or.inl (by simp)
    rcases returnIf_ok_cases _ _ _ _ h with ⟨_, rfl⟩ | ⟨_, h⟩
    · exact Or.inl (by simp)
    rcases returnIf_ok_cases _ _ _ _ h with ⟨_, rfl⟩ | ⟨_, h⟩
    · exact Or.inl (by simp)
    rcases returnIf_ok_cases _ _ _ _ h with ⟨_, rfl⟩ | ⟨_, h⟩
    · exact Or.inl (by simp)
    rcases returnIf_ok_cases _ _ _ _ h with ⟨_, rfl⟩ | ⟨_, h⟩
    · exact Or.inl (by simp)
    rcases returnIf_ok_cases _ _ _ _ h with ⟨_, rfl⟩ | ⟨_, h⟩
    · exact Or.inl (by simp)
    rcases returnIf_ok_cases _ _ _ _ h with ⟨_, rfl⟩ | ⟨_, h⟩
    · exact Or.inl (by simp)
    rcases returnIf_ok_cases _ _ _ _ h with ⟨hc, rfl⟩ | ⟨hc8, h⟩
    · refine Or.inr ⟨t, ?_, Or.inl rfl⟩
      simp only [Option.some.injEq] at hc
      simp [referencedStruct, hm, hc]
    have hns : (t.Kind == Kind.Struct) = false := by simpa using hc8
    rcases returnIf_ok_cases _ _ _ _ h with ⟨hc, rfl⟩ | ⟨_, h⟩
    · obtain ⟨hk, e, he, hek⟩ := land_map_true _ _ _ hc
      refine Or.inr ⟨e, ?_, Or.inr (Or.inl (by simp [he]))⟩
      simp [referencedStruct, hm, hns, hk, he, hek]
    rcases returnIf_ok_cases _ _ _ _ h with ⟨hc, rfl⟩ | ⟨_, h⟩
    · obtain ⟨hk, e, he, hek⟩ := land_map_true _ _ _ hc
      refine Or.inr ⟨e, ?_, Or.inr (Or.inr (by simp [he]))⟩
      simp [referencedStruct, hm, hns, hk, he, hek]
    · cases h

/-- Coverage is kept when the list grows. -/
theorem covered_append (R ext : List GoType) (ms : List Member) (h : covered R ms) :
    covered (R ++ ext) ms := by
  intro m hm s hs
  rw [List.map_append]
  exact List.mem_append_left _ (h m hm s hs)

/-- The walk over the targets, started from a list with pairwise different
names whose types are covered, ends on such a list, which extends the first and
covers the Spec fields of every target. -/
theorem foldTargets_spec (targets acc : List GoType)
    (hnd : (acc.map fun u => u.Name).Nodup) (hcl : ∀ u ∈ acc, covered acc u.Members) :
    let R := targets.foldl
      (fun acc t =>
        match getSpecMemberType t with
        | none => acc
        | some spec => collectMembers acc spec.Members) acc
    (∃ ext, R = acc ++ ext) ∧ (R.map fun u => u.Name).Nodup ∧
      (∀ u ∈ R, covered R u.Members) ∧
      (∀ t ∈ targets, ∀ spec, getSpecMemberType t = some spec → covered R spec.Members) := by
  induction targets generalizing acc with
  | nil => exact ⟨⟨[], by simp⟩, hnd, hcl, by simp⟩
  | cons t rest ih =>
    simp only [List.foldl_cons]
    cases hs : getSpecMemberType t with
    | none =>
      obtain ⟨hext, hnd', hcl', hcov'⟩ := ih acc hnd hcl
      refine ⟨hext, hnd', hcl', fun x hx spec hsx => ?_⟩
      rcases List.mem_cons.mp hx with rfl | hx
      · rw [hs] at hsx
        cases hsx
      · exact hcov' x hx spec hsx
    | some spec =>
      obtain ⟨⟨ext1, hext1, hcl1⟩, hcov1, hnd1⟩ := collectMembers_spec acc spec.Members
      have hclosed : ∀ u ∈ collectMembers acc spec.Members,
          covered (collectMembers acc spec.Members) u.Members := by
        intro u hu
        rw [hext1] at hu
        rcases List.mem_append.mp hu with hu | hu
        · rw [hext1]
          exact covered_append acc ext1 _ (hcl u hu)
        · exact hcl1 u hu
      obtain ⟨⟨ext2, hext2⟩, hnd', hcl', hcov'⟩ :=
        ih (collectMembers acc spec.Members) (hnd1 hnd) hclosed
      refine ⟨⟨ext1 ++ ext2, by rw [hext2, hext1, List.append_assoc]⟩, hnd', hcl',
        fun x hx spec' hsx => ?_⟩
      rcases List.mem_cons.mp hx with rfl | hx
      · rw [hs] at hsx
        cases hsx
        rw [hext2]
        exact covered_append _ ext2 _ hcov1
      · exact hcov' x hx spec' hsx

/-- A parameter's type text is covered when the struct its field refers to
is. -/
theorem typeTextCovered_of_covered (ToSnake : String → String) (R : List GoType)
    (ms : List Member) (h : covered R ms) :
    ∀ m ∈ ms, ∀ r, argSpec ToSnake m = .ok r → typeTextCovered R r.2.1 := by
  intro m hm r hr
  rcases argSpec_type_text ToSnake m r hr with hfix | ⟨s, hs, htext⟩
  · exact Or.inl hfix
  · obtain ⟨u, hu, hn⟩ := List.mem_map.mp (h m hm s hs)
    refine Or.inr ⟨u, hu, ?_⟩
    have hn' : u.Name.Name = s.Name.Name := by
      have := congrArg types.Name.Name hn
      exact this
    rw [hn']
    exact htext

/-- C19: the list `FindStructMembers` returns has no duplicates, its types
having pairwise different names; it contains, by name, every struct type
that a Spec field of a target, or a field of one of its own types, refers to
directly, behind a pointer or as a slice element; hence the type text of every
parameter `argSpec` classifies for those fields names no struct or names a type
of the list. -/
theorem C19_FindStructMembers (targets : List GoType) :
    ((FindStructMembers targets).map fun u => u.Name).Nodup ∧
      (FindStructMembers targets).Nodup ∧
      (∀ t ∈ targets, ∀ spec, getSpecMemberType t = some spec →
        covered (FindStructMembers targets) spec.Members) ∧
      (∀ u ∈ FindStructMembers targets, covered (FindStructMembers targets) u.Members) ∧
      (∀ (ToSnake : String → String) (t : GoType), t ∈ targets →
        ∀ spec, getSpecMemberType t = some spec → ∀ m ∈ spec.Members,
          ∀ r, argSpec ToSnake m = .ok r → typeTextCovered (FindStructMembers targets) r.2.1) ∧
      (∀ (ToSnake : String → String) (u : GoType), u ∈ FindStructMembers targets →
        ∀ m ∈ u.Members,
          ∀ r, argSpec ToSnake m = .ok r →
            typeTextCovered (FindStructMembers targets) r.2.1) := by
  obtain ⟨_, hnd, hcl, hcov⟩ := foldTargets_spec targets [] (by simp) (by simp)
  refine ⟨hnd, List.Nodup.of_map _ hnd, hcov, hcl, fun ToSnake t ht spec hs => ?_,
    fun ToSnake u hu => ?_⟩
  · exact typeTextCovered_of_covered ToSnake _ _ (hcov t ht spec hs)
  · exact typeTextCovered_of_covered ToSnake _ _ (hcl u hu)

/-- The collector on the target `Tree`: `Node`, met twice, is recorded once, and
`Leaf`, met behind a pointer inside `Node`, is recorded after it. -/
theorem FindStructMembers_tree :
    (FindStructMembers [treeType]).map (fun u => u.Name.Name) = ["Node", "Leaf"] := by
  simp [FindStructMembers, collectMembers, getSpecMemberType, getSpecMemberTypeLoop, treeType,
    nodeType, structNamed, field, referencedStruct, GoType.Members, GoType.Kind, builtin,
    sliceOf, pointerTo, GoType.Elem, GoType.Name, kind_beq]

theorem C19_FindStructMembers_witness :
    typeTextCovered (FindStructMembers [treeType])
        (lowerCase "Others", "List[Node]", "None").2.1 ∧
      ((FindStructMembers [treeType]).map fun u => u.Name).Nodup :=
  ⟨(C19_FindStructMembers [treeType]).2.2.2.2.1 lowerCase treeType (List.mem_singleton.mpr rfl)
      (structNamed "TreeSpec" [field "Root" nodeType, field "Others" (sliceOf nodeType)]) rfl
      (field "Others" (sliceOf nodeType))
      (by simp [structNamed, GoType.Members])
      (lowerCase "Others", "List[Node]", "None") rfl,
   (C19_FindStructMembers [treeType]).1⟩

end codegen
